import Mathlib

/-!
# Verification model of the ionic TX/RX packet-processing core

Shallow embedding of `drivers/linux/eth/ionic/ionic_txrx.c` (with the queue
helpers of `ionic_dev.h`, which are not part of the provided sources, modelled
from the specification).  Machine integers are modelled as `Nat`; the ring
index arithmetic `x & (num_descs - 1)` of the source is kept literally as
`x &&& (num_descs - 1)` and related to `% num_descs` by the power-of-two
hypothesis.  The kernel's jiffies arithmetic is modelled on `Nat` (no 2^64
wraparound; theorems assume `then <= now`).  The driver is modelled in its
default configuration: `IONIC_PAGE_ORDER = 0` (so the `#if (IONIC_PAGE_ORDER
 > 0)` blocks compile out and page reuse goes through `get_page`), and the
optional `IONIC_SUPPORTS_BQL` / `IONIC_DEBUG_STATS` / `CSUM_DEBUG` /
hardware-timestamp blocks are compiled out.  Statistics counters and actual
device-register writes (`ionic_dbell_ring`) are external effects that do not
feed back into the modelled state; where a function's only effect is such an
external write it is noted in the comments.
-/

namespace Ionic

/-- Kernel constant `ETH_HLEN`: bytes of an Ethernet header. -/
def ETH_HLEN : Nat := 14

/-- Kernel constant `VLAN_HLEN`: bytes of a VLAN tag. -/
def VLAN_HLEN : Nat := 4

/-- Page-splitting constants of the driver.  `IONIC_PAGE_SIZE`,
`IONIC_PAGE_SPLIT_SZ` and `IONIC_PAGE_SPLIT_MAX_MTU` are macros from
`ionic_dev.h` (not under `src/`), so they are carried as parameters. -/
structure PageParams where
  page_size : Nat
  split_sz : Nat
  split_max_mtu : Nat
  deriving DecidableEq

/-- Kernel macro `ALIGN(x, a)`: round `x` up to a multiple of `a`.  The kernel
writes this with a power-of-two mask; for power-of-two `a` the masked form
equals this quotient form. -/
def kALIGN (x a : Nat) : Nat := ((x + a - 1) / a) * a

/-- One `struct ionic_buf_info` entry: a (possibly absent) DMA-mapped page.
`page` models the `page` pointer being non-NULL; `page_reusable` models the
kernel predicate `dev_page_is_reusable(page)`; `page_refs` counts the extra
page references taken by `get_page` during recycling (`IONIC_PAGE_ORDER = 0`
configuration); `len` is used on the TX side. -/
structure IonicBufInfo where
  page : Bool
  dma_addr : Nat
  page_offset : Nat
  page_reusable : Bool
  page_refs : Nat
  len : Nat
  deriving DecidableEq, Inhabited

/-- `ionic_rx_buf_recycle` (ionic_txrx.c:164-187).  Decides whether the
buffer segment can be reused for another receive descriptor.  Returns the
decision and the updated `buf_info` (the source mutates `buf_info` in place;
note that `page_offset` is advanced before the page-bounds test, so the
advanced offset is visible even when the function returns false). -/
def ionic_rx_buf_recycle (P : PageParams) (mtu : Nat) (buf : IonicBufInfo)
    (used : Nat) : Bool × IonicBufInfo :=
  if !buf.page_reusable then
    (false, buf)
  else if decide (P.split_max_mtu < mtu) then
    (false, buf)
  else
    let size := kALIGN used P.split_sz
    let buf1 := { buf with page_offset := buf.page_offset + size }
    if decide (P.page_size ≤ buf1.page_offset) then
      (false, buf1)
    else
      (true, { buf1 with page_refs := buf1.page_refs + 1 })

/-- `ionic_rx_page_alloc` (ionic_txrx.c:96-138) result on one `buf_info`.
The page allocator and DMA mapper are external; their outcome is an oracle:
`none` models `alloc_pages` or `dma_map_page` failing (the function frees the
page again and returns an error without touching `buf_info`), `some addr`
models success with DMA address `addr`. -/
def ionic_rx_page_alloc (oracle : Option Nat) (buf : IonicBufInfo) :
    Option IonicBufInfo :=
  match oracle with
  | none => none
  | some addr =>
    some { buf with page := true, dma_addr := addr, page_offset := 0,
                    page_reusable := true, page_refs := 0 }

/-- `ionic_rx_page_free` (ionic_txrx.c:140-162): unmap and free the page,
then clear the pointer.  With no page present the function is a no-op. -/
def ionic_rx_page_free (buf : IonicBufInfo) : IonicBufInfo :=
  if !buf.page then buf else { buf with page := false }

/-- A network-stack packet handle (`struct sk_buff *`): an identity plus the
`skb->len` byte count used by the TX cleanup accounting. -/
structure SkbRef where
  id : Nat
  len : Nat
  deriving DecidableEq, Inhabited

/-- Per-slot software metadata, `struct ionic_desc_info`: the completion
callback (modelled as the Bool `cb`, non-NULL or NULL), its opaque argument
(the packet for TX carrying slots), the byte count written by TX cleanup,
the number of buffers in use and the buffer list. -/
structure IonicDescInfo where
  cb : Bool
  cb_arg : Option SkbRef
  bytes : Nat
  nbufs : Nat
  bufs : List IonicBufInfo
  deriving DecidableEq, Inhabited

/-- `struct ionic_queue`: the descriptor ring of one direction of a queue
pair.  `info` is the parallel software metadata array (indexed by slot),
`dbell_jiffies`/`dbell_deadline` implement the doorbell debouncing, and
`max_sg_elems` bounds the scatter-gather list of one descriptor. -/
structure IonicQueue where
  num_descs : Nat
  head_idx : Nat
  tail_idx : Nat
  info : List IonicDescInfo
  dbell_jiffies : Nat
  dbell_deadline : Nat
  max_sg_elems : Nat
  deriving DecidableEq, Inhabited

/-- Modelled from the spec: `ionic_q_space_avail` (declared in
`ionic_dev.h`, which is not under `src/`).  Spec 4.1: `space_available()`
returns `N - 1 - ((head_idx - tail_idx) mod N)` (one slot always reserved);
the C unsigned subtraction is `(head_idx + N - tail_idx) mod N` for in-range
indices. -/
def ionic_q_space_avail (q : IonicQueue) : Nat :=
  q.num_descs - 1 - ((q.head_idx + q.num_descs - q.tail_idx) % q.num_descs)

/-- Modelled from the spec: `ionic_q_has_space` (declared in `ionic_dev.h`,
not under `src/`).  Spec 4.1: `has_space(n)` checks that at least `n` free
slots are available before multi-descriptor posts. -/
def ionic_q_has_space (q : IonicQueue) (want : Nat) : Bool :=
  decide (want ≤ ionic_q_space_avail q)

/-- Modelled from the spec: the emptiness test of spec 3 (`queue is empty iff
head_idx == tail_idx`); this is also the test the source itself performs at
ionic_txrx.c:41, 68, 428 and 1008. -/
def queue_empty (q : IonicQueue) : Bool :=
  decide (q.head_idx = q.tail_idx)

/-- Modelled from the spec: the fullness test of spec 3 and claim C2 (`full
iff posting one more would make head_idx equal tail_idx`, the reserved-slot
discipline). -/
def queue_full (q : IonicQueue) : Bool :=
  decide ((q.head_idx + 1) % q.num_descs = q.tail_idx)

/-- Modelled from the spec: `ionic_q_post` (defined in `ionic_dev.c`, not
under `src/`).  Spec 4.1: `post` writes one descriptor plus software metadata
at `head_idx` and advances `head_idx` modulo N; the conditional doorbell
write is an external device-register effect.  The hardware-format descriptor
contents are written separately by the callers (modelled on the `info` slot
where the claims need them). -/
def ionic_q_post (q : IonicQueue) (_ring_dbell : Bool) (cb : Bool)
    (cb_arg : Option SkbRef) : IonicQueue :=
  let di := q.info.getD q.head_idx default
  { q with info := q.info.set q.head_idx { di with cb := cb, cb_arg := cb_arg },
           head_idx := (q.head_idx + 1) % q.num_descs }

/-- The fields of `struct ionic_rxq_comp` consumed by the RX drain path.
`color` is the generation color bit carried in `pkt_type_color`;
`comp_index` names the descriptor slot the completion finalizes. -/
structure IonicRxqComp where
  color : Bool
  comp_index : Nat
  status : Nat
  len : Nat
  num_sg_elems : Nat
  deriving DecidableEq, Inhabited

/-- The buffer walk of `ionic_rx_frags` (ionic_txrx.c:217-244): for each of
the `num_sg_elems + 1` segments, attach `frag_len` bytes to the skb (packet
assembly is host-stack state, not modelled) and then either recycle the
segment via `ionic_rx_buf_recycle` or unmap it and clear its page pointer.
A missing page aborts the walk (the skb is freed, the packet dropped);
segments already processed keep their updates.  The first argument is the
iteration count `i`. -/
def ionic_rx_frags_walk (P : PageParams) (mtu : Nat) :
    Nat → Nat → List IonicBufInfo → List IonicBufInfo
  | 0, _, bufs => bufs
  | _ + 1, _, [] => []
  | i + 1, len, b :: rest =>
    if !b.page then b :: rest
    else
      let frag_len := min len (P.page_size - b.page_offset)
      let recycled := ionic_rx_buf_recycle P mtu b frag_len
      let b2 := if recycled.1 then recycled.2 else { recycled.2 with page := false }
      b2 :: ionic_rx_frags_walk P mtu i (len - frag_len) rest

/-- `ionic_rx_clean` (ionic_txrx.c:290-414), restricted to its effect on the
slot metadata.  A non-zero status or an oversize length drops the packet
(counted, buffers untouched); a length within the copybreak threshold copies
the bytes out without touching the buffers (they recycle in place); a longer
packet goes through the zero-copy fragment walk.  Hash/checksum/VLAN/
timestamp extraction decorates the delivered packet only and is outside the
modelled state. -/
def ionic_rx_clean (P : PageParams) (mtu rx_copybreak : Nat)
    (comp : IonicRxqComp) (di : IonicDescInfo) : IonicDescInfo :=
  if decide (comp.status ≠ 0) then di
  else if decide (mtu + ETH_HLEN + VLAN_HLEN < comp.len) then di
  else if decide (comp.len ≤ rx_copybreak) then di
  else { di with bufs := ionic_rx_frags_walk P mtu (comp.num_sg_elems + 1) comp.len di.bufs }

/-- `ionic_rx_service` (ionic_txrx.c:416-444).  On a color match it stops on
an empty queue, consumes the completion only when `comp_index` equals the
current `tail_idx`, and then cleans exactly that one slot, advancing
`tail_idx` by one (masked).  Besides the source's boolean result and the
updated queue, the model returns the trace of slot indices dispatched to
`ionic_rx_clean`. -/
def ionic_rx_service (P : PageParams) (mtu rx_copybreak : Nat)
    (done_color : Bool) (comp : IonicRxqComp) (q : IonicQueue) :
    Bool × IonicQueue × List Nat :=
  if !(comp.color == done_color) then (false, q, [])
  else if q.tail_idx == q.head_idx then (false, q, [])
  else if !(q.tail_idx == comp.comp_index) then (false, q, [])
  else
    let index := q.tail_idx
    let di := q.info.getD index default
    let q1 := { q with tail_idx := (q.tail_idx + 1) &&& (q.num_descs - 1) }
    let di1 := ionic_rx_clean P mtu rx_copybreak comp di
    let di2 := { di1 with cb := false, cb_arg := none }
    (true, { q1 with info := q1.info.set index di2 }, [index])

/-- The scatter-gather part of one `ionic_rx_fill` iteration
(ionic_txrx.c:497-521): walk `buf[1..]`, allocating pages where absent, until
`remain_len` is covered or `max_sg_elems` elements are used.  Arguments are
the remaining sg budget `j_left`, the remaining length, the allocation
oracle and the buffer tail; the result is `none` on an allocation failure
(the whole fill returns early) and otherwise the updated buffers plus the
remaining oracle and the number of sg fragments used. -/
def ionic_rx_fill_sg (P : PageParams) :
    Nat → Nat → List (Option Nat) → List IonicBufInfo →
    List IonicBufInfo × List (Option Nat) × Nat × Bool
  | 0, _, allocs, bufs => (bufs, allocs, 0, true)
  | _ + 1, 0, allocs, bufs => (bufs, allocs, 0, true)
  | _ + 1, _, allocs, [] => ([], allocs, 0, true)
  | j_left + 1, remain_len + 1, allocs, b :: rest =>
    let headAlloc : Option (IonicBufInfo × List (Option Nat)) :=
      if !b.page then
        match ionic_rx_page_alloc (allocs.headD none) b with
        | none => none
        | some b1 => some (b1, allocs.tail)
      else some (b, allocs)
    match headAlloc with
    | none => (b :: rest, allocs, 0, false)
    | some (b1, allocs1) =>
      let frag_len := min (remain_len + 1) (P.page_size - b1.page_offset)
      let step := ionic_rx_fill_sg P j_left (remain_len + 1 - frag_len) allocs1 rest
      (b1 :: step.1, step.2.1, step.2.2.1 + 1, step.2.2.2)

/-- One iteration of the fill loop of `ionic_rx_fill` (ionic_txrx.c:469-540)
acting on the slot at `head_idx`: allocate the main buffer if absent, cover
`len` with the main fragment plus scatter-gather fragments, record `nbufs`
and post the descriptor (callback `ionic_rx_clean`, NULL argument, no
immediate doorbell).  A `none` second component signals an allocation
failure: the source returns from the middle of the loop body, before the
post, but buffers already allocated remain recorded in the slot. -/
def ionic_rx_fill_one (P : PageParams) (len : Nat)
    (allocs : List (Option Nat)) (q : IonicQueue) :
    IonicQueue × Option (List (Option Nat)) :=
  let di := q.info.getD q.head_idx default
  match di.bufs with
  | [] => (ionic_q_post q false true none, some allocs)
  | b :: rest =>
    let headAlloc : Option (IonicBufInfo × List (Option Nat)) :=
      if !b.page then
        match ionic_rx_page_alloc (allocs.headD none) b with
        | none => none
        | some b1 => some (b1, allocs.tail)
      else some (b, allocs)
    match headAlloc with
    | none => (q, none)
    | some (b1, allocs1) =>
      let frag_len := min len (P.page_size - b1.page_offset)
      let remain_len := len - frag_len
      match ionic_rx_fill_sg P q.max_sg_elems remain_len allocs1 rest with
      | (rest1, _, _, false) =>
        ({ q with info := q.info.set q.head_idx { di with bufs := b1 :: rest1 } }, none)
      | (rest1, allocs2, nsg, true) =>
        let di1 := { di with bufs := b1 :: rest1, nbufs := nsg + 1 }
        let q1 := { q with info := q.info.set q.head_idx di1 }
        (ionic_q_post q1 false true none, some allocs2)

/-- The fill loop of `ionic_rx_fill` (ionic_txrx.c:469-540): `i` iterations
(the source computes `i = ionic_q_space_avail(q)` once).  The boolean result
records whether the loop ran to completion; on an allocation failure the
source returns from the function immediately, skipping the trailing doorbell
and deadline reset. -/
def ionic_rx_fill_loop (P : PageParams) (len : Nat) :
    Nat → List (Option Nat) → IonicQueue → IonicQueue × Bool
  | 0, _, q => (q, true)
  | i + 1, allocs, q =>
    match ionic_rx_fill_one P len allocs q with
    | (q1, none) => (q1, false)
    | (q1, some allocs1) => ionic_rx_fill_loop P len i allocs1 q1

/-- `ionic_rx_fill` (ionic_txrx.c:446-550).  Fills as many slots as
`ionic_q_space_avail` reports, each to length `mtu + ETH_HLEN + VLAN_HLEN`;
when the loop completes it rings one doorbell for the whole batch (external
device write), resets the doorbell deadline to the minimum and stamps the
doorbell time.  `minDeadline` carries the macro `IONIC_RX_MIN_DOORBELL_-
DEADLINE` (defined outside `src/`), `now` the current jiffies. -/
def ionic_rx_fill (P : PageParams) (mtu minDeadline now : Nat)
    (allocs : List (Option Nat)) (q : IonicQueue) : IonicQueue :=
  let len := mtu + ETH_HLEN + VLAN_HLEN
  match ionic_rx_fill_loop P len (ionic_q_space_avail q) allocs q with
  | (q1, false) => q1
  | (q1, true) =>
    { q1 with dbell_deadline := minDeadline, dbell_jiffies := now }

/-- `ionic_rx_empty` (ionic_txrx.c:552-573): walk every slot of the ring,
free every buffer page present (the source's inner loop covers the whole
`bufs` array, `IONIC_RX_MAX_SG_ELEMS + 1` entries), clear the slot metadata,
and reset both indices to zero. -/
def ionic_rx_empty (q : IonicQueue) : IonicQueue :=
  { q with
    info := q.info.map fun di =>
      { di with bufs := di.bufs.map ionic_rx_page_free,
                nbufs := 0, cb := false, cb_arg := none },
    head_idx := 0, tail_idx := 0 }

/-- The fields of `struct ionic_txq_comp` consumed by the TX drain path:
the generation color bit and the index of the last descriptor slot this
completion finalizes. -/
structure IonicTxqComp where
  color : Bool
  comp_index : Nat
  deriving DecidableEq, Inhabited

/-- `ionic_tx_desc_unmap_bufs` (ionic_txrx.c:875-893): unmap the head and
fragment DMA mappings recorded in the slot (external device effect) and
reset `nbufs`; with no buffers recorded it returns immediately. -/
def ionic_tx_desc_unmap_bufs (di : IonicDescInfo) : IonicDescInfo :=
  if di.nbufs == 0 then di else { di with nbufs := 0 }

/-- `ionic_tx_clean` (ionic_txrx.c:895-947), restricted to its effect on the
slot metadata: unmap the buffers, and when a packet is attached record its
byte count in `desc_info->bytes` and release it exactly once (the released
packet is returned).  The hardware-timestamp branch is compiled out and the
subqueue wake touches only external netdev state. -/
def ionic_tx_clean (di : IonicDescInfo) (cb_arg : Option SkbRef) :
    IonicDescInfo × Option SkbRef :=
  let di1 := ionic_tx_desc_unmap_bufs di
  match cb_arg with
  | none => (di1, none)
  | some skb => ({ di1 with bytes := skb.len }, some skb)

/-- The do-while drain loop of `ionic_tx_service` (ionic_txrx.c:966-978):
clean the slot at `tail_idx`, advance `tail_idx` by one (masked with
`num_descs - 1`), and repeat until the slot just cleaned was the one named
by the completion.  The C loop terminates only through that equality; the
`fuel` argument bounds the iterations of the model (the caller passes
`num_descs`, enough for any in-range `comp_index`), and the final Bool
records whether the loop exited through the source's condition.  The model
also returns the trace of cleaned slot indices and of released packets.
The `pkts`/`bytes` locals of the source feed only the byte-queue-limit
accounting, which is compiled out. -/
def ionic_tx_service_loop (comp_index : Nat) :
    Nat → IonicQueue → List Nat → List SkbRef →
    IonicQueue × List Nat × List SkbRef × Bool
  | 0, q, cleaned, released => (q, cleaned, released, false)
  | fuel + 1, q, cleaned, released =>
    let index := q.tail_idx
    let di := q.info.getD index default
    let di0 := { di with bytes := 0 }
    let cleanres := ionic_tx_clean di0 di0.cb_arg
    let di1 := { cleanres.1 with cb := false, cb_arg := none }
    let q1 := { q with info := q.info.set index di1,
                       tail_idx := (q.tail_idx + 1) &&& (q.num_descs - 1) }
    let released1 := released ++ cleanres.2.toList
    if index == comp_index then (q1, cleaned ++ [index], released1, true)
    else ionic_tx_service_loop comp_index fuel q1 (cleaned ++ [index]) released1

/-- `ionic_tx_service` (ionic_txrx.c:949-986): nothing happens on a color
mismatch; on a match the drain loop runs unconditionally (there is no
empty-queue test on the TX side) and the function returns true. -/
def ionic_tx_service (done_color : Bool) (comp : IonicTxqComp)
    (q : IonicQueue) : Bool × IonicQueue × List Nat × List SkbRef :=
  if !(comp.color == done_color) then (false, q, [], [])
  else
    let r := ionic_tx_service_loop comp.comp_index q.num_descs q [] []
    (true, r.1, r.2.1, r.2.2.1)

/-- The while loop of `ionic_tx_empty` (ionic_txrx.c:1008-1019): walk the
not-completed entries from `tail_idx` until the queue is empty, cleaning
each (releasing any attached packet).  `fuel` bounds the model's iterations;
`num_descs` is enough for in-range indices. -/
def ionic_tx_empty_loop :
    Nat → IonicQueue → List SkbRef → IonicQueue × List SkbRef
  | 0, q, released => (q, released)
  | fuel + 1, q, released =>
    if q.head_idx == q.tail_idx then (q, released)
    else
      let index := q.tail_idx
      let di := q.info.getD index default
      let di0 := { di with bytes := 0 }
      let cleanres := ionic_tx_clean di0 di0.cb_arg
      let di1 := { cleanres.1 with cb := false, cb_arg := none }
      let q1 := { q with info := q.info.set index di1,
                         tail_idx := (q.tail_idx + 1) &&& (q.num_descs - 1) }
      ionic_tx_empty_loop fuel q1 (released ++ cleanres.2.toList)

/-- `ionic_tx_empty` (ionic_txrx.c:1001-1025).  The byte-queue-limit tail is
compiled out; note the source never touches `head_idx` and leaves `tail_idx`
wherever the walk stopped. -/
def ionic_tx_empty (q : IonicQueue) : IonicQueue × List SkbRef :=
  ionic_tx_empty_loop q.num_descs q []

/-- Result of a doorbell poke: the function's return value, whether the
doorbell was actually rung (external device write), and the updated queue. -/
structure PokeResult where
  ret : Bool
  rang : Bool
  q : IonicQueue
  deriving DecidableEq

/-- `ionic_txq_poke_doorbell` (ionic_txrx.c:30-60): nothing to do on an
empty queue; otherwise ring the doorbell only when the time since the last
ring exceeds the deadline window, stamping the ring time.  The TX poke never
adjusts the deadline window.  Jiffies arithmetic is modelled on `Nat`
(`dif = now - then`, no wraparound). -/
def ionic_txq_poke_doorbell (now : Nat) (q : IonicQueue) : PokeResult :=
  if q.tail_idx == q.head_idx then { ret := false, rang := false, q := q }
  else
    let dif := now - q.dbell_jiffies
    if decide (q.dbell_deadline < dif) then
      { ret := true, rang := true, q := { q with dbell_jiffies := now } }
    else { ret := true, rang := false, q := q }

/-- `ionic_rxq_poke_doorbell` (ionic_txrx.c:62-89): as the TX poke, but each
time the doorbell is actually rung the deadline window is doubled, capped at
`IONIC_RX_MAX_DOORBELL_DEADLINE` (a macro from outside `src/`, carried as
the `maxDeadline` parameter). -/
def ionic_rxq_poke_doorbell (maxDeadline now : Nat) (q : IonicQueue) :
    PokeResult :=
  if q.tail_idx == q.head_idx then { ret := false, rang := false, q := q }
  else
    let dif := now - q.dbell_jiffies
    if decide (q.dbell_deadline < dif) then
      let dif2 := 2 * q.dbell_deadline
      let dif3 := if decide (maxDeadline < dif2) then maxDeadline else dif2
      { ret := true, rang := true,
        q := { q with dbell_jiffies := now, dbell_deadline := dif3 } }
    else { ret := true, rang := false, q := q }

/-- `ionic_maybe_stop_tx` (ionic_txrx.c:1413-1431).  When the ring lacks
`ndescs` free slots the subqueue is stopped and, after the `smp_rmb` memory
barrier, the space check is repeated; a concurrent `ionic_tx_clean` may have
advanced the queue in between, so the re-check reads the separate state
`qRecheck`.  If space appeared the subqueue is woken again and 0 (not
stopped) is returned.  `nif_stopped` is the subqueue's netdev stopped bit;
the result is the C return value paired with the updated bit. -/
def ionic_maybe_stop_tx (q qRecheck : IonicQueue) (ndescs : Nat)
    (nif_stopped : Bool) : Nat × Bool :=
  if !(ionic_q_has_space q ndescs) then
    if ionic_q_has_space qRecheck ndescs then (0, false) else (1, true)
  else (0, nif_stopped)

/-- The network stack's transmit return codes used by this driver. -/
inductive NetdevTxResult where
  | tx_ok
  | tx_busy
  deriving DecidableEq

/-- Observable outcome of one `ionic_start_xmit` call: the return code,
whether the driver took ownership of the packet (posted it or freed it), and
the subqueue stopped bit afterwards. -/
structure XmitOutcome where
  res : NetdevTxResult
  skb_consumed : Bool
  nif_stopped : Bool
  deriving DecidableEq

/-- `ionic_start_xmit` (ionic_txrx.c:1471-1522), control skeleton.  A down
device frees and accepts the packet; a failed linearize (`ndescs < 0`) drops
it; a failed backpressure check returns `NETDEV_TX_BUSY` without consuming
the packet; otherwise the packet is encoded and posted (`tx_err` models
`ionic_tx_tso`/`ionic_tx` failing, which drops the packet) and a trailing
`ionic_maybe_stop_tx(q, 4)` may stop the subqueue for the next packet
(reading the post-send queue states `qPost`/`qPostRecheck`).  The
hardware-timestamp redirect is compiled out; queue selection is external. -/
def ionic_start_xmit (lif_up : Bool) (ndescs : Int)
    (q qRecheck qPost qPostRecheck : IonicQueue) (tx_err : Bool)
    (nif_stopped : Bool) : XmitOutcome :=
  if !lif_up then
    { res := .tx_ok, skb_consumed := true, nif_stopped := nif_stopped }
  else if decide (ndescs < 0) then
    { res := .tx_ok, skb_consumed := true, nif_stopped := nif_stopped }
  else
    let stop1 := ionic_maybe_stop_tx q qRecheck ndescs.toNat nif_stopped
    if decide (stop1.1 ≠ 0) then
      { res := .tx_busy, skb_consumed := false, nif_stopped := stop1.2 }
    else if tx_err then
      { res := .tx_ok, skb_consumed := true, nif_stopped := stop1.2 }
    else
      let stop2 := ionic_maybe_stop_tx qPost qPostRecheck 4 stop1.2
      { res := .tx_ok, skb_consumed := true, nif_stopped := stop2.2 }

/-- Cursor state of the TSO fragment walk in `ionic_tx_tso`
(ionic_txrx.c:1181-1219): the current fragment cursor (`frag_addr`,
`frag_rem`), the mapped buffers not yet started (`buf_info` onwards), and
the descriptor under construction (`desc`/`desc_addr`/`desc_len` and the
scatter-gather elements written, whose count is `desc_nsge`). -/
structure TsoInnerState where
  fragAddr : Nat
  fragRem : Nat
  bufs : List (Nat × Nat)
  haveDesc : Bool
  descAddr : Nat
  descLen : Nat
  elems : List (Nat × Nat)
  deriving DecidableEq

/-- The inner loop of `ionic_tx_tso` (ionic_txrx.c:1193-1219): consume
fragments until `seg_rem` bytes are gathered into one descriptor, grabbing
the next mapped buffer whenever the current fragment is exhausted and
splitting a fragment across the boundary when it is larger than the
remaining segment.  The first chunk fills the main descriptor; later chunks
append scatter-gather elements.  Running out of buffers while bytes remain
would walk past the `buf_info` array in C; the model returns `none`. -/
def ionic_tx_tso_seg (s : TsoInnerState) (segRem : Nat) :
    Option TsoInnerState :=
  if _hseg : segRem = 0 then some s
  else if _hfrag : s.fragRem = 0 then
    match _hb : s.bufs with
    | [] => none
    | b :: rest =>
      ionic_tx_tso_seg
        { s with fragAddr := b.1, fragRem := b.2, bufs := rest } segRem
  else
    let chunk := min s.fragRem segRem
    let filled : Bool × Nat × Nat × List (Nat × Nat) :=
      if s.haveDesc then (true, s.descAddr, s.descLen, s.elems ++ [(s.fragAddr, chunk)])
      else (true, s.fragAddr, chunk, s.elems)
    ionic_tx_tso_seg
      { fragAddr := s.fragAddr + chunk, fragRem := s.fragRem - chunk,
        bufs := s.bufs, haveDesc := filled.1, descAddr := filled.2.1,
        descLen := filled.2.2.1, elems := filled.2.2.2 } (segRem - chunk)
termination_by (s.bufs.length, segRem)
decreasing_by
  · simp only [_hb]
    exact Prod.Lex.left _ _ (by simp)
  · exact Prod.Lex.right _ (by omega)

/-- One descriptor posted by `ionic_tx_tso_post` (ionic_txrx.c:1075-1116):
the hardware TSO descriptor fields and how the slot was posted (doorbell
request, completion callback and argument). -/
structure TsoPost where
  addr : Nat
  len : Nat
  nsge : Nat
  elems : List (Nat × Nat)
  hdr_len : Nat
  mss : Nat
  vlan_tci : Nat
  flag_vlan : Bool
  flag_encap : Bool
  flag_sot : Bool
  flag_eot : Bool
  ring_dbell : Bool
  cb : Bool
  cb_arg : Option SkbRef
  deriving DecidableEq

/-- `ionic_tx_tso_post` (ionic_txrx.c:1075-1116) as a record of the
descriptor written and the post that follows: the start descriptor carries
the start-of-transfer flag and is posted with `ionic_tx_clean` and the
packet as callback argument (no doorbell); every other descriptor is posted
with no callback, NULL argument, and a doorbell only on the final one. -/
def ionic_tx_tso_post (skb : SkbRef) (addr : Nat) (nsge : Nat) (len : Nat)
    (elems : List (Nat × Nat)) (hdrlen mss : Nat) (outer_csum : Bool)
    (vlan_tci : Nat) (has_vlan : Bool) (start done : Bool) : TsoPost :=
  { addr := addr, len := len, nsge := nsge, elems := elems,
    hdr_len := hdrlen, mss := mss, vlan_tci := vlan_tci,
    flag_vlan := has_vlan, flag_encap := outer_csum,
    flag_sot := start, flag_eot := done,
    ring_dbell := if start then false else done,
    cb := start,
    cb_arg := if start then some skb else none }

/-- The outer loop of `ionic_tx_tso` (ionic_txrx.c:1186-1231): while bytes
remain, gather one descriptor of up to `seg_rem` bytes, post it, and
continue with `seg_rem = min(tso_rem, mss)`; `done` holds exactly when the
descriptor just posted consumed the last byte.  `fuel` bounds the model's
iterations (the entry point passes `skb->len + 1`, enough whenever
`mss > 0`). -/
def ionic_tx_tso_loop (skb : SkbRef) (hdrlen mss : Nat) (outer_csum : Bool)
    (vlan_tci : Nat) (has_vlan : Bool) :
    Nat → Nat → Nat → TsoInnerState → Bool → Option (List TsoPost)
  | 0, _, _, _, _ => none
  | fuel + 1, tsoRem, segRem, s, start =>
    if tsoRem = 0 then some []
    else
      match ionic_tx_tso_seg
          { s with haveDesc := false, descAddr := 0, descLen := 0, elems := [] }
          segRem with
      | none => none
      | some s1 =>
        let tsoRem1 := tsoRem - segRem
        let segRem1 := min tsoRem1 mss
        let done := decide (tsoRem1 = 0)
        let post := ionic_tx_tso_post skb s1.descAddr s1.elems.length
          s1.descLen s1.elems hdrlen mss outer_csum vlan_tci has_vlan start done
        match ionic_tx_tso_loop skb hdrlen mss outer_csum vlan_tci has_vlan
            fuel tsoRem1 segRem1 s1 false with
        | none => none
        | some rest => some (post :: rest)

/-- `ionic_tx_tso` (ionic_txrx.c:1118-1239) as the trace of descriptors it
posts.  `bufs` is the (address, length) list produced by
`ionic_tx_map_skb`; the DMA mapping step, the pseudo-checksum preload and
the header-length computation happen before the loop and are carried here
as the already-resolved `bufs`, `hdrlen`, `mss` and flag inputs.  The walk
starts with `tso_rem = skb->len`, `seg_rem = min(tso_rem, hdrlen + mss)`,
an empty fragment cursor, and `start = true`. -/
def ionic_tx_tso (skb : SkbRef) (mss hdrlen : Nat) (outer_csum : Bool)
    (vlan_tci : Nat) (has_vlan : Bool) (bufs : List (Nat × Nat)) :
    Option (List TsoPost) :=
  ionic_tx_tso_loop skb hdrlen mss outer_csum vlan_tci has_vlan
    (skb.len + 1) skb.len (min skb.len (hdrlen + mss))
    { fragAddr := 0, fragRem := 0, bufs := bufs, haveDesc := false,
      descAddr := 0, descLen := 0, elems := [] } true

/-- The post/drain/teardown operations of claim C2, with the external
inputs each needs (completion entries, allocation oracles, time). -/
inductive QOp where
  | op_rx_service (P : PageParams) (mtu rx_copybreak : Nat)
      (done_color : Bool) (comp : IonicRxqComp)
  | op_tx_service (done_color : Bool) (comp : IonicTxqComp)
  | op_rx_fill (P : PageParams) (mtu minDeadline now : Nat)
      (allocs : List (Option Nat))
  | op_tx_empty
  | op_rx_empty

/-- Apply one operation to the queue state. -/
def QOp.apply (op : QOp) (q : IonicQueue) : IonicQueue :=
  match op with
  | .op_rx_service P mtu cbreak dc comp => (ionic_rx_service P mtu cbreak dc comp q).2.1
  | .op_tx_service dc comp => (ionic_tx_service dc comp q).2.1
  | .op_rx_fill P mtu minD now allocs => ionic_rx_fill P mtu minD now allocs q
  | .op_tx_empty => (ionic_tx_empty q).1
  | .op_rx_empty => ionic_rx_empty q

/-- Specification helper for claims C1 and C3: the `d` consecutive ring
slot indices starting at `t`, advancing modulo `N`. -/
def ring_span (N : Nat) : Nat → Nat → List Nat
  | _, 0 => []
  | t, d + 1 => t :: ring_span N ((t + 1) % N) d

/-- Specification helper for claim C5: the packet bytes still available to
the TSO fragment walk (current fragment remainder plus the unstarted
buffers). -/
def tso_bytes_left (s : TsoInnerState) : Nat :=
  s.fragRem + (s.bufs.map Prod.snd).sum

/-- Specification helper for claim C3: the packets attached (as completion
callback arguments) to the given ring slots, in order — the packets a
teardown walk over those slots must release. -/
def outstanding_packets (q : IonicQueue) : List Nat → List SkbRef
  | [] => []
  | i :: rest =>
    ((q.info.getD i default).cb_arg).toList ++ outstanding_packets q rest

/-! ## Theorems -/

/-- The source's ring index mask `x & (num_descs - 1)` computes
`x % num_descs` for a power-of-two descriptor count. -/
theorem mask_eq_mod (k x : Nat) : x &&& (2 ^ k - 1) = x % 2 ^ k :=
  Nat.and_pow_two_sub_one_eq_mod x k

/-- Claim C4: `ionic_rx_buf_recycle(q, buf_info, used)` marks the segment
reusable iff the page's external reference count allows exclusive reuse
(`dev_page_is_reusable`) and the netdev MTU is at most the split-max
threshold and advancing the segment's page offset by
`align_up(used, split_unit)` stays within page bounds; when reusable, the
offset is advanced by that amount and the page's reference count is
adjusted (`get_page`) for continued mapping; and with MTU above split-max
the result is always false. -/
theorem claim_C4_recycle (P : PageParams) (mtu used : Nat)
    (buf : IonicBufInfo) :
    ((ionic_rx_buf_recycle P mtu buf used).1 = true ↔
      (buf.page_reusable = true ∧ mtu ≤ P.split_max_mtu ∧
        buf.page_offset + kALIGN used P.split_sz < P.page_size)) ∧
    ((ionic_rx_buf_recycle P mtu buf used).1 = true →
      (ionic_rx_buf_recycle P mtu buf used).2.page_offset =
          buf.page_offset + kALIGN used P.split_sz ∧
        (ionic_rx_buf_recycle P mtu buf used).2.page_refs =
          buf.page_refs + 1) ∧
    (P.split_max_mtu < mtu →
      (ionic_rx_buf_recycle P mtu buf used).1 = false) := by
  unfold ionic_rx_buf_recycle
  by_cases h1 : buf.page_reusable
  · by_cases h2 : P.split_max_mtu < mtu
    · simp [h1, h2]
      try omega
    · by_cases h3 : P.page_size ≤ buf.page_offset + kALIGN used P.split_sz
      · simp [h1, h2, h3]
        try omega
      · simp [h1, h2, h3]
        try omega
  · simp [h1]

/-- Witness for C4: with page size 4096, split unit 2048, split-max MTU
2048 (the driver's order-0 values), a reusable segment at offset 0 with 600
bytes used is recycled, its offset advancing to 2048 and its reference
count rising; with MTU 9000 the same call refuses reuse. -/
theorem claim_C4_recycle_witness :
    (ionic_rx_buf_recycle ⟨4096, 2048, 2048⟩ 1500
        ⟨true, 0, 0, true, 0, 0⟩ 600).1 = true ∧
    (ionic_rx_buf_recycle ⟨4096, 2048, 2048⟩ 1500
        ⟨true, 0, 0, true, 0, 0⟩ 600).2.page_offset = 0 + kALIGN 600 2048 ∧
    (ionic_rx_buf_recycle ⟨4096, 2048, 2048⟩ 9000
        ⟨true, 0, 0, true, 0, 0⟩ 600).1 = false := by
  have h1 := (claim_C4_recycle ⟨4096, 2048, 2048⟩ 1500 600
    ⟨true, 0, 0, true, 0, 0⟩).1.mpr (by decide)
  have h2 := (claim_C4_recycle ⟨4096, 2048, 2048⟩ 1500 600
    ⟨true, 0, 0, true, 0, 0⟩).2.1 h1
  have h3 := (claim_C4_recycle ⟨4096, 2048, 2048⟩ 9000 600
    ⟨true, 0, 0, true, 0, 0⟩).2.2 (by decide)
  exact ⟨h1, h2.1, h3⟩

/-- Claim C10: an RX completion whose color matches but whose reported
`comp_index` differs from the queue's current `tail_idx` is not consumed:
`ionic_rx_service` returns false and leaves the queue state unchanged (no
slot cleaned, `tail_idx` not advanced). -/
theorem claim_C10_rx_index_mismatch (P : PageParams) (mtu cbreak : Nat)
    (dc : Bool) (comp : IonicRxqComp) (q : IonicQueue)
    (hcolor : comp.color = dc) (hidx : comp.comp_index ≠ q.tail_idx) :
    ionic_rx_service P mtu cbreak dc comp q = (false, q, []) := by
  unfold ionic_rx_service
  by_cases h : q.tail_idx = q.head_idx
  · simp [hcolor, h]
  · simp [hcolor, h]
    exact fun hh => hidx hh.symm

/-- Witness for C10: a color-matched completion naming slot 2 against a
queue whose tail is at slot 0 is ignored outright. -/
theorem claim_C10_rx_index_mismatch_witness :
    ionic_rx_service ⟨4096, 2048, 2048⟩ 1500 256 true
      ⟨true, 2, 0, 64, 0⟩ ⟨8, 3, 0, [], 0, 0, 2⟩ =
      (false, ⟨8, 3, 0, [], 0, 0, 2⟩, []) :=
  claim_C10_rx_index_mismatch ⟨4096, 2048, 2048⟩ 1500 256 true
    ⟨true, 2, 0, 64, 0⟩ ⟨8, 3, 0, [], 0, 0, 2⟩ (by decide) (by decide)

/-- Claim C6: on an up device, when the ring lacks the demanded descriptors
the subqueue is stopped and the check repeated under the barrier; if the
re-check still fails, `ionic_start_xmit` returns `NETDEV_TX_BUSY` with the
packet not consumed and the subqueue left stopped; if space appeared in the
interim, the subqueue is immediately woken (`ionic_maybe_stop_tx` returns 0
with the stopped bit cleared) and the send proceeds. -/
theorem claim_C6_backpressure (n : Nat) (q qRecheck qPost qPostRecheck :
    IonicQueue) (tx_err nif : Bool) :
    (ionic_q_has_space q n = false → ionic_q_has_space qRecheck n = false →
      ionic_start_xmit true (Int.ofNat n) q qRecheck qPost qPostRecheck
          tx_err nif =
        { res := .tx_busy, skb_consumed := false, nif_stopped := true }) ∧
    (ionic_q_has_space q n = false → ionic_q_has_space qRecheck n = true →
      ionic_maybe_stop_tx q qRecheck n nif = (0, false) ∧
        (ionic_start_xmit true (Int.ofNat n) q qRecheck qPost qPostRecheck
            tx_err nif).res = .tx_ok ∧
        (ionic_start_xmit true (Int.ofNat n) q qRecheck qPost qPostRecheck
            tx_err nif).skb_consumed = true) := by
  constructor
  · intro h1 h2
    unfold ionic_start_xmit ionic_maybe_stop_tx
    simp [h1, h2]
  · intro h1 h2
    refine ⟨by unfold ionic_maybe_stop_tx; simp [h1, h2], ?_, ?_⟩ <;>
      · unfold ionic_start_xmit ionic_maybe_stop_tx
        by_cases he : tx_err <;>
          by_cases hp : ionic_q_has_space qPost 4 <;>
            by_cases hpr : ionic_q_has_space qPostRecheck 4 <;>
              simp [h1, h2, he, hp, hpr] <;> (split <;> rfl)

/-- Witness for C6: a one-free-slot ring (8 descriptors, head 0, tail 1,
so `space_avail = 0`) refuses a 1-descriptor send with busy and the packet
retained; if the re-check sees the drained ring (tail 0, `space_avail =
7`), the stop is immediately undone and the send proceeds. -/
theorem claim_C6_backpressure_witness :
    (ionic_start_xmit true (Int.ofNat 1) ⟨8, 0, 1, [], 0, 0, 2⟩
        ⟨8, 0, 1, [], 0, 0, 2⟩ ⟨8, 0, 1, [], 0, 0, 2⟩ ⟨8, 0, 1, [], 0, 0, 2⟩
        false false =
      { res := .tx_busy, skb_consumed := false, nif_stopped := true }) ∧
    (ionic_maybe_stop_tx ⟨8, 0, 1, [], 0, 0, 2⟩ ⟨8, 0, 0, [], 0, 0, 2⟩ 1
        false = (0, false) ∧
      (ionic_start_xmit true (Int.ofNat 1) ⟨8, 0, 1, [], 0, 0, 2⟩
          ⟨8, 0, 0, [], 0, 0, 2⟩ ⟨8, 0, 1, [], 0, 0, 2⟩
          ⟨8, 0, 1, [], 0, 0, 2⟩ false false).res = .tx_ok) := by
  have h1 := (claim_C6_backpressure 1 ⟨8, 0, 1, [], 0, 0, 2⟩
    ⟨8, 0, 1, [], 0, 0, 2⟩ ⟨8, 0, 1, [], 0, 0, 2⟩ ⟨8, 0, 1, [], 0, 0, 2⟩
    false false).1 (by decide) (by decide)
  have h2 := (claim_C6_backpressure 1 ⟨8, 0, 1, [], 0, 0, 2⟩
    ⟨8, 0, 0, [], 0, 0, 2⟩ ⟨8, 0, 1, [], 0, 0, 2⟩ ⟨8, 0, 1, [], 0, 0, 2⟩
    false false).2 (by decide) (by decide)
  exact ⟨h1, h2.1, h2.2.1⟩

/-- Claim C8 counterexample: an RX poke on a non-empty queue within the
deadline window (deadline 4, elapsed 2) skips the ring but leaves the
window at 4 — the claim's growth of the window on a skipped ring (to 8)
does not happen. -/
theorem claim_C8_counterexample :
    (ionic_rxq_poke_doorbell 64 2 ⟨4, 1, 0, [], 0, 4, 2⟩).rang = false ∧
    (ionic_rxq_poke_doorbell 64 2 ⟨4, 1, 0, [], 0, 4, 2⟩).q.dbell_deadline
      = 4 ∧
    ¬((ionic_rxq_poke_doorbell 64 2
        ⟨4, 1, 0, [], 0, 4, 2⟩).q.dbell_deadline = 8) := by
  decide

/-- Claim C8 as amended: on a non-empty queue a new doorbell ring is
skipped when the time since the last ring is within the deadline window
(both pokes, state untouched); the TX poke never adjusts the window; the RX
poke doubles the window, capped at the maximum deadline, each time it
actually rings (not when it skips); and the window shrinks back to the
minimum deadline whenever `ionic_rx_fill` completes its pass. -/
theorem claim_C8_doorbell_amended (maxD now : Nat) (q : IonicQueue)
    (hne : q.tail_idx ≠ q.head_idx) :
    (now - q.dbell_jiffies ≤ q.dbell_deadline →
      ionic_txq_poke_doorbell now q = { ret := true, rang := false, q := q } ∧
      ionic_rxq_poke_doorbell maxD now q =
        { ret := true, rang := false, q := q }) ∧
    (ionic_txq_poke_doorbell now q).q.dbell_deadline = q.dbell_deadline ∧
    (q.dbell_deadline < now - q.dbell_jiffies →
      (ionic_rxq_poke_doorbell maxD now q).rang = true ∧
      (ionic_rxq_poke_doorbell maxD now q).q.dbell_deadline =
        min (2 * q.dbell_deadline) maxD ∧
      (ionic_rxq_poke_doorbell maxD now q).q.dbell_jiffies = now) ∧
    (∀ P mtu minD now2 allocs,
      (ionic_rx_fill_loop P (mtu + ETH_HLEN + VLAN_HLEN)
          (ionic_q_space_avail q) allocs q).2 = true →
      (ionic_rx_fill P mtu minD now2 allocs q).dbell_deadline = minD) := by
  refine ⟨?_, ?_, ?_, ?_⟩
  · intro h
    unfold ionic_txq_poke_doorbell ionic_rxq_poke_doorbell
    simp [hne, Ne.symm hne]
    omega
  · unfold ionic_txq_poke_doorbell
    by_cases h : q.dbell_deadline < now - q.dbell_jiffies <;>
      simp [hne, Ne.symm hne, h]
  · intro h
    unfold ionic_rxq_poke_doorbell
    by_cases hcap : maxD < 2 * q.dbell_deadline <;>
      · simp [hne, Ne.symm hne, h, hcap]
        omega
  · intro P mtu minD now2 allocs hdone
    unfold ionic_rx_fill
    rcases hr : ionic_rx_fill_loop P (mtu + ETH_HLEN + VLAN_HLEN)
        (ionic_q_space_avail q) allocs q with ⟨q1, done⟩
    rw [hr] at hdone
    simp at hdone
    subst hdone
    simp [hr]

/-- Witness for C8 (amended): on a queue with deadline 4 and last ring at
time 0, a poke at time 2 skips and changes nothing; a poke at time 7 rings
and doubles the window to 8 (cap 64); and a completing fill pass resets the
window to the minimum 1. -/
theorem claim_C8_doorbell_amended_witness :
    (ionic_txq_poke_doorbell 2 ⟨4, 1, 0, [], 0, 4, 2⟩ =
        { ret := true, rang := false, q := ⟨4, 1, 0, [], 0, 4, 2⟩ } ∧
      ionic_rxq_poke_doorbell 64 2 ⟨4, 1, 0, [], 0, 4, 2⟩ =
        { ret := true, rang := false, q := ⟨4, 1, 0, [], 0, 4, 2⟩ }) ∧
    (ionic_rxq_poke_doorbell 64 7 ⟨4, 1, 0, [], 0, 4, 2⟩).q.dbell_deadline
      = min (2 * 4) 64 ∧
    (ionic_rx_fill ⟨4096, 2048, 2048⟩ 1500 1 9
        [some 1000, some 2000, some 3000] ⟨4, 1, 0, [], 0, 4, 2⟩).dbell_deadline
      = 1 := by
  have h1 := (claim_C8_doorbell_amended 64 2 ⟨4, 1, 0, [], 0, 4, 2⟩
    (by decide)).1 (by decide)
  have h2 := ((claim_C8_doorbell_amended 64 7 ⟨4, 1, 0, [], 0, 4, 2⟩
    (by decide)).2.2.1 (by decide)).2.1
  have h3 := (claim_C8_doorbell_amended 64 2 ⟨4, 1, 0, [], 0, 4, 2⟩
    (by decide)).2.2.2 ⟨4096, 2048, 2048⟩ 1500 1 9
    [some 1000, some 2000, some 3000] (by decide)
  refine ⟨⟨?_, h1.2⟩, h2, h3⟩
  have h4 := (claim_C8_doorbell_amended 64 2 ⟨4, 1, 0, [], 0, 4, 2⟩
    (by decide)).1 (by decide)
  exact h4.1

/-- Remainders by a power of two are in range. -/
theorem mod_two_pow_lt (k x : Nat) : x % 2 ^ k < 2 ^ k :=
  Nat.mod_lt _ (Nat.two_pow_pos k)

/-- Advancing an in-range ring index by `0 < m < N` steps modulo `N` moves
it: the ring has no nontrivial fixed points below one full lap. -/
theorem ring_step_ne (k t m : Nat) (ht : t < 2 ^ k) (hm0 : 0 < m)
    (hmk : m < 2 ^ k) : (t + m) % 2 ^ k ≠ t := by
  intro h
  have h1 : t + m ≡ t + 0 [MOD 2 ^ k] := by
    show (t + m) % 2 ^ k = (t + 0) % 2 ^ k
    rw [Nat.add_zero, h, Nat.mod_eq_of_lt ht]
  have h3 : m % 2 ^ k = 0 % 2 ^ k := Nat.ModEq.add_left_cancel' t h1
  rw [Nat.mod_eq_of_lt hmk, Nat.zero_mod] at h3
  omega
/-- Any in-range target index `c` is reached from `t` in exactly
`(c + N - t) % N` ring steps. -/
theorem ring_dist (k t c : Nat) (ht : t < 2 ^ k) (hc : c < 2 ^ k) :
    c = (t + (c + 2 ^ k - t) % 2 ^ k) % 2 ^ k := by
  have h1 : t + (c + 2 ^ k - t) = c + 2 ^ k := by omega
  rw [Nat.add_mod_mod, h1, Nat.add_mod_right, Nat.mod_eq_of_lt hc]

/-- A ring span starts at its starting index. -/
theorem ring_span_head (N t d : Nat) : (ring_span N t (d + 1)).head? = some t :=
  rfl

/-- A nonempty ring span is not the empty list. -/
theorem ring_span_ne_nil (N t d : Nat) : ring_span N t (d + 1) ≠ [] := by
  simp [ring_span]

/-- The last slot of a `d + 1`-slot ring span from `t` is `(t + d) % N`. -/
theorem ring_span_getLast (k : Nat) :
    ∀ d t, t < 2 ^ k →
      (ring_span (2 ^ k) t (d + 1)).getLast? = some ((t + d) % 2 ^ k) := by
  intro d
  induction d with
  | zero =>
    intro t ht
    simp [ring_span, Nat.mod_eq_of_lt ht]
  | succ d ih =>
    intro t ht
    have h1 := ih ((t + 1) % 2 ^ k) (mod_two_pow_lt k _)
    calc (ring_span (2 ^ k) t (d + 1 + 1)).getLast?
        = (ring_span (2 ^ k) ((t + 1) % 2 ^ k) (d + 1)).getLast? := by
          rw [show ring_span (2 ^ k) t (d + 1 + 1) =
              t :: ring_span (2 ^ k) ((t + 1) % 2 ^ k) (d + 1) from rfl]
          rw [show ring_span (2 ^ k) ((t + 1) % 2 ^ k) (d + 1) =
              ((t + 1) % 2 ^ k) ::
                ring_span (2 ^ k) (((t + 1) % 2 ^ k + 1) % 2 ^ k) d from rfl]
          exact List.getLast?_cons_cons
      _ = some (((t + 1) % 2 ^ k + d) % 2 ^ k) := h1
      _ = some ((t + (d + 1)) % 2 ^ k) := by
          rw [Nat.mod_add_mod, show t + 1 + d = t + (d + 1) from by omega]

/-- The TX drain loop (`ionic_tx_service` do-while) cleans exactly the
`d + 1` consecutive ring slots from `tail_idx` through the completion's
index (`d` the ring distance), advances `tail_idx` to one past the
completion's slot, leaves `head_idx` and `num_descs` alone, and exits
through the loop condition. -/
theorem tx_loop_drains (k comp : Nat) :
    ∀ d fuel (q : IonicQueue) (cleaned : List Nat) (released : List SkbRef),
      q.num_descs = 2 ^ k → q.tail_idx < 2 ^ k → comp < 2 ^ k →
      comp = (q.tail_idx + d) % 2 ^ k → d < 2 ^ k → d < fuel →
      (ionic_tx_service_loop comp fuel q cleaned released).1.tail_idx
          = (comp + 1) % 2 ^ k ∧
      (ionic_tx_service_loop comp fuel q cleaned released).1.head_idx
          = q.head_idx ∧
      (ionic_tx_service_loop comp fuel q cleaned released).1.num_descs
          = 2 ^ k ∧
      (ionic_tx_service_loop comp fuel q cleaned released).2.1
          = cleaned ++ ring_span (2 ^ k) q.tail_idx (d + 1) ∧
      (ionic_tx_service_loop comp fuel q cleaned released).2.2.2 = true := by
  intro d
  induction d with
  | zero =>
    intro fuel q cleaned released hN ht hc hcomp hdk hfuel
    obtain ⟨f, rfl⟩ : ∃ f, fuel = f + 1 := ⟨fuel - 1, by omega⟩
    have hic : q.tail_idx = comp := by
      rw [hcomp, Nat.add_zero, Nat.mod_eq_of_lt ht]
    simp [ionic_tx_service_loop, hic, ring_span, hN, mask_eq_mod]
  | succ d ih =>
    intro fuel q cleaned released hN ht hc hcomp hdk hfuel
    obtain ⟨f, rfl⟩ : ∃ f, fuel = f + 1 := ⟨fuel - 1, by omega⟩
    have hne : q.tail_idx ≠ comp := by
      rw [hcomp]
      exact (ring_step_ne k q.tail_idx (d + 1) ht (by omega) hdk).symm
    have hmask : (q.tail_idx + 1) &&& (q.num_descs - 1)
        = (q.tail_idx + 1) % 2 ^ k := by
      rw [hN, mask_eq_mod]
    have ih1 := fun qinfo released1 =>
      ih f
        { q with info := qinfo,
                 tail_idx := (q.tail_idx + 1) % 2 ^ k }
        (cleaned ++ [q.tail_idx]) released1
        hN (mod_two_pow_lt k _) hc
        (by
          show comp = ((q.tail_idx + 1) % 2 ^ k + d) % 2 ^ k
          rw [Nat.mod_add_mod,
            show q.tail_idx + 1 + d = q.tail_idx + (d + 1) from by omega, hcomp])
        (by omega) (by omega)
    simp only [ionic_tx_service_loop, hmask]
    rw [if_neg (by simp [hne])]
    have ih2 := ih1
      (q.info.set q.tail_idx
        { (ionic_tx_clean
            { q.info.getD q.tail_idx default with bytes := 0 }
            ({ q.info.getD q.tail_idx default with bytes := 0 }).cb_arg).1
          with cb := false, cb_arg := none })
      (released ++ (ionic_tx_clean
            { q.info.getD q.tail_idx default with bytes := 0 }
            ({ q.info.getD q.tail_idx default with bytes := 0 }).cb_arg).2.toList)
    refine ⟨ih2.1, ih2.2.1, ih2.2.2.1, ?_, ih2.2.2.2.2⟩
    rw [ih2.2.2.2.1]
    simp [ring_span]

/-- On a color match, `ionic_tx_service` is the drain loop run with fuel
`num_descs` from the current state and empty traces. -/
theorem tx_service_unfold (dc : Bool) (tcomp : IonicTxqComp)
    (q : IonicQueue) (hcolor : tcomp.color = dc) :
    ionic_tx_service dc tcomp q =
      (true,
        (ionic_tx_service_loop tcomp.comp_index q.num_descs q [] []).1,
        (ionic_tx_service_loop tcomp.comp_index q.num_descs q [] []).2.1,
        (ionic_tx_service_loop tcomp.comp_index q.num_descs q [] []).2.2.1) := by
  unfold ionic_tx_service
  simp [hcolor]

/-- Claim C1: a color-matched TX completion makes `ionic_tx_service` drain
ring slots starting at the queue's current `tail_idx`, advancing modulo N
for each, until it has cleaned the slot named by the completion's
`comp_index` (one completion can finalize several descriptors): the cleaned
trace is the consecutive ring span from `tail_idx` ending at `comp_index`,
and `tail_idx` ends one past `comp_index`.  A color-matched RX completion
accepted by `ionic_rx_service` cleans exactly the one slot at `tail_idx`
and advances `tail_idx` by exactly one. -/
theorem claim_C1_completion_granularity (k : Nat) (dc : Bool)
    (P : PageParams) (mtu cbreak : Nat) (tcomp : IonicTxqComp)
    (rcomp : IonicRxqComp) (qt qr : IonicQueue) :
    (tcomp.color = dc → qt.num_descs = 2 ^ k → qt.tail_idx < 2 ^ k →
      tcomp.comp_index < 2 ^ k →
      (ionic_tx_service dc tcomp qt).1 = true ∧
      (ionic_tx_service dc tcomp qt).2.2.1 =
        ring_span (2 ^ k) qt.tail_idx
          ((tcomp.comp_index + 2 ^ k - qt.tail_idx) % 2 ^ k + 1) ∧
      (ionic_tx_service dc tcomp qt).2.2.1.getLast? = some tcomp.comp_index ∧
      (ionic_tx_service dc tcomp qt).2.1.tail_idx =
        (tcomp.comp_index + 1) % 2 ^ k ∧
      (ionic_tx_service dc tcomp qt).2.1.head_idx = qt.head_idx) ∧
    (rcomp.color = dc → qr.num_descs = 2 ^ k → qr.tail_idx < 2 ^ k →
      qr.tail_idx ≠ qr.head_idx → rcomp.comp_index = qr.tail_idx →
      (ionic_rx_service P mtu cbreak dc rcomp qr).1 = true ∧
      (ionic_rx_service P mtu cbreak dc rcomp qr).2.2 = [qr.tail_idx] ∧
      (ionic_rx_service P mtu cbreak dc rcomp qr).2.1.tail_idx =
        (qr.tail_idx + 1) % 2 ^ k ∧
      (ionic_rx_service P mtu cbreak dc rcomp qr).2.1.head_idx =
        qr.head_idx) := by
  constructor
  · intro hcolor hN ht hc
    have hd := tx_loop_drains k tcomp.comp_index
      ((tcomp.comp_index + 2 ^ k - qt.tail_idx) % 2 ^ k) (2 ^ k) qt [] []
      hN ht hc (ring_dist k qt.tail_idx tcomp.comp_index ht hc)
      (mod_two_pow_lt k _) (mod_two_pow_lt k _)
    have hlast := ring_span_getLast k
      ((tcomp.comp_index + 2 ^ k - qt.tail_idx) % 2 ^ k) qt.tail_idx ht
    rw [← ring_dist k qt.tail_idx tcomp.comp_index ht hc] at hlast
    rw [tx_service_unfold dc tcomp qt hcolor, hN]
    exact ⟨rfl, by simpa using hd.2.2.2.1,
      by rw [hd.2.2.2.1]; simpa using hlast, hd.1, hd.2.1⟩
  · intro hcolor hN ht hne hidx
    unfold ionic_rx_service
    simp [hcolor, hidx, hne, hN, mask_eq_mod]

/-- Witness for C1: an 8-slot TX queue with tail 2 drains slots 2, 3, 4 for
a completion naming slot 4; an 8-slot RX queue with tail 5 and head 7
accepts a completion naming slot 5 and cleans exactly that slot. -/
theorem claim_C1_completion_granularity_witness :
    ((ionic_tx_service true ⟨true, 4⟩ ⟨8, 6, 2, [], 0, 0, 2⟩).2.2.1 =
      ring_span 8 2 ((4 + 8 - 2) % 8 + 1) ∧
      (ionic_tx_service true ⟨true, 4⟩
        ⟨8, 6, 2, [], 0, 0, 2⟩).2.1.tail_idx = 5) ∧
    ((ionic_rx_service ⟨4096, 2048, 2048⟩ 1500 256 true ⟨true, 5, 0, 64, 0⟩
        ⟨8, 7, 5, [], 0, 0, 2⟩).2.2 = [5] ∧
      (ionic_rx_service ⟨4096, 2048, 2048⟩ 1500 256 true ⟨true, 5, 0, 64, 0⟩
        ⟨8, 7, 5, [], 0, 0, 2⟩).2.1.tail_idx = 6) := by
  have h1 := (claim_C1_completion_granularity 3 true ⟨4096, 2048, 2048⟩
    1500 256 ⟨true, 4⟩ ⟨true, 5, 0, 64, 0⟩ ⟨8, 6, 2, [], 0, 0, 2⟩
    ⟨8, 7, 5, [], 0, 0, 2⟩).1 (by decide) (by decide) (by decide) (by decide)
  have h2 := (claim_C1_completion_granularity 3 true ⟨4096, 2048, 2048⟩
    1500 256 ⟨true, 4⟩ ⟨true, 5, 0, 64, 0⟩ ⟨8, 6, 2, [], 0, 0, 2⟩
    ⟨8, 7, 5, [], 0, 0, 2⟩).2 (by decide) (by decide) (by decide) (by decide)
    (by decide)
  exact ⟨⟨h1.2.1, by rw [h1.2.2.2.1]; decide⟩,
    ⟨h2.2.1, by rw [h2.2.2.1]; decide⟩⟩

/-- Claim C9 counterexample: on an already empty TX queue (head = tail = 0)
a color-matched completion naming slot 0 does NOT make `ionic_tx_service`
stop: it cleans slot 0 and advances `tail_idx` to 1 — the do-while loop has
no empty-queue check, contrary to the claim. -/
theorem claim_C9_counterexample :
    (⟨4, 0, 0, [], 0, 0, 2⟩ : IonicQueue).tail_idx =
      (⟨4, 0, 0, [], 0, 0, 2⟩ : IonicQueue).head_idx ∧
    (ionic_tx_service true ⟨true, 0⟩ ⟨4, 0, 0, [], 0, 0, 2⟩).1 = true ∧
    (ionic_tx_service true ⟨true, 0⟩ ⟨4, 0, 0, [], 0, 0, 2⟩).2.2.1 = [0] ∧
    (ionic_tx_service true ⟨true, 0⟩
      ⟨4, 0, 0, [], 0, 0, 2⟩).2.1.tail_idx = 1 := by
  decide

/-- Claim C9 as amended: on a color match, `ionic_rx_service` consults the
bound queue's `tail_idx` first and stops on an empty queue, cleaning
nothing; `ionic_tx_service` performs no such emptiness check — its do-while
drain always cleans at least the slot at the current `tail_idx`, queue
empty or not. -/
theorem claim_C9_empty_check_amended (k : Nat) (dc : Bool) (P : PageParams)
    (mtu cbreak : Nat) (tcomp : IonicTxqComp) (rcomp : IonicRxqComp)
    (qt qr : IonicQueue) :
    (rcomp.color = dc → qr.tail_idx = qr.head_idx →
      ionic_rx_service P mtu cbreak dc rcomp qr = (false, qr, [])) ∧
    (tcomp.color = dc → qt.num_descs = 2 ^ k → qt.tail_idx < 2 ^ k →
      tcomp.comp_index < 2 ^ k →
      (ionic_tx_service dc tcomp qt).2.2.1.head? = some qt.tail_idx ∧
      (ionic_tx_service dc tcomp qt).2.2.1 ≠ []) := by
  constructor
  · intro hcolor hempty
    unfold ionic_rx_service
    simp [hcolor, hempty]
  · intro hcolor hN ht hc
    have hd := tx_loop_drains k tcomp.comp_index
      ((tcomp.comp_index + 2 ^ k - qt.tail_idx) % 2 ^ k) (2 ^ k) qt [] []
      hN ht hc (ring_dist k qt.tail_idx tcomp.comp_index ht hc)
      (mod_two_pow_lt k _) (mod_two_pow_lt k _)
    rw [tx_service_unfold dc tcomp qt hcolor, hN]
    refine ⟨?_, ?_⟩
    · show (ionic_tx_service_loop tcomp.comp_index (2 ^ k) qt
        [] []).2.1.head? = some qt.tail_idx
      rw [hd.2.2.2.1]
      simp [ring_span]
    · show (ionic_tx_service_loop tcomp.comp_index (2 ^ k) qt
        [] []).2.1 ≠ []
      rw [hd.2.2.2.1]
      simp [ring_span]

/-- Witness for C9 (amended): an RX completion against an empty queue
(head = tail = 3) is refused with no state change; the TX drain on an
8-slot queue with tail 2 always begins by cleaning slot 2. -/
theorem claim_C9_empty_check_amended_witness :
    ionic_rx_service ⟨4096, 2048, 2048⟩ 1500 256 true ⟨true, 3, 0, 64, 0⟩
      ⟨8, 3, 3, [], 0, 0, 2⟩ = (false, ⟨8, 3, 3, [], 0, 0, 2⟩, []) ∧
    (ionic_tx_service true ⟨true, 4⟩ ⟨8, 6, 2, [], 0, 0, 2⟩).2.2.1.head? =
      some 2 := by
  have h1 := (claim_C9_empty_check_amended 3 true ⟨4096, 2048, 2048⟩ 1500
    256 ⟨true, 4⟩ ⟨true, 3, 0, 64, 0⟩ ⟨8, 6, 2, [], 0, 0, 2⟩
    ⟨8, 3, 3, [], 0, 0, 2⟩).1 (by decide) (by decide)
  have h2 := (claim_C9_empty_check_amended 3 true ⟨4096, 2048, 2048⟩ 1500
    256 ⟨true, 4⟩ ⟨true, 3, 0, 64, 0⟩ ⟨8, 6, 2, [], 0, 0, 2⟩
    ⟨8, 3, 3, [], 0, 0, 2⟩).2 (by decide) (by decide) (by decide) (by decide)
  exact ⟨h1, h2.1⟩

/-- Writing one slot leaves every other slot's metadata unchanged. -/
theorem getD_set_ne_info (l : List IonicDescInfo) (j : Nat)
    (v : IonicDescInfo) (i : Nat) (h : i ≠ j) :
    (l.set j v).getD i default = l.getD i default := by
  simp [List.getD_eq_getElem?_getD, List.getElem?_set_ne (Ne.symm h)]

/-- `ionic_tx_clean` releases exactly the packet it is handed as the
callback argument. -/
theorem ionic_tx_clean_snd (di : IonicDescInfo) (c : Option SkbRef) :
    (ionic_tx_clean di c).2 = c := by
  cases c <;> rfl

/-- `ionic_tx_clean` always leaves the slot with no buffers in use (the
unmap step resets `nbufs`). -/
theorem ionic_tx_clean_nbufs (di : IonicDescInfo) (c : Option SkbRef) :
    (ionic_tx_clean di c).1.nbufs = 0 := by
  cases c <;>
    · unfold ionic_tx_clean ionic_tx_desc_unmap_bufs
      by_cases h : di.nbufs == 0 <;> simp_all

/-- Every member of a ring span from `t` is `(t + j) % N` for some step
count `j` below the span length. -/
theorem ring_span_mem_form (k : Nat) :
    ∀ d t i, t < 2 ^ k → i ∈ ring_span (2 ^ k) t d →
      ∃ j, j < d ∧ i = (t + j) % 2 ^ k := by
  intro d
  induction d with
  | zero =>
    intro t i ht hi
    simp [ring_span] at hi
  | succ d ih =>
    intro t i ht hi
    rw [show ring_span (2 ^ k) t (d + 1) =
      t :: ring_span (2 ^ k) ((t + 1) % 2 ^ k) d from rfl] at hi
    rcases List.mem_cons.mp hi with hi | hi
    · exact ⟨0, by omega, by rw [hi, Nat.add_zero, Nat.mod_eq_of_lt ht]⟩
    · obtain ⟨j, hj, hform⟩ := ih ((t + 1) % 2 ^ k) i (mod_two_pow_lt k _) hi
      refine ⟨j + 1, by omega, ?_⟩
      rw [hform, Nat.mod_add_mod,
        show t + 1 + j = t + (j + 1) from by omega]

/-- Unfolding equation of `outstanding_packets` on a cons cell. -/
theorem outstanding_packets_cons (q : IonicQueue) (i : Nat)
    (rest : List Nat) :
    outstanding_packets q (i :: rest) =
      ((q.info.getD i default).cb_arg).toList ++ outstanding_packets q rest :=
  rfl

/-- `outstanding_packets` depends only on the metadata of the listed
slots. -/
theorem outstanding_packets_congr (q1 q : IonicQueue) :
    ∀ idxs : List Nat,
      (∀ i ∈ idxs, q1.info.getD i default = q.info.getD i default) →
      outstanding_packets q1 idxs = outstanding_packets q idxs := by
  intro idxs
  induction idxs with
  | nil => intro _; rfl
  | cons i rest ih =>
    intro h
    unfold outstanding_packets
    rw [h i (List.mem_cons_self i rest),
      ih fun j hj => h j (List.mem_cons_of_mem i hj)]

/-- Once a slot's metadata is cleaned (no callback, no argument, no
buffers), the `ionic_tx_empty` walk keeps it cleaned: every write the walk
performs is itself of that cleaned shape. -/
theorem tx_empty_loop_keeps_clean :
    ∀ fuel (q : IonicQueue) (released : List SkbRef) (i : Nat),
      (q.info.getD i default).cb = false →
      (q.info.getD i default).cb_arg = none →
      (q.info.getD i default).nbufs = 0 →
      ((ionic_tx_empty_loop fuel q released).1.info.getD i default).cb
          = false ∧
      ((ionic_tx_empty_loop fuel q released).1.info.getD i default).cb_arg
          = none ∧
      ((ionic_tx_empty_loop fuel q released).1.info.getD i default).nbufs
          = 0 := by
  intro fuel
  induction fuel with
  | zero =>
    intro q released i h1 h2 h3
    exact ⟨h1, h2, h3⟩
  | succ f ih =>
    intro q released i h1 h2 h3
    simp only [ionic_tx_empty_loop]
    by_cases hq : q.head_idx = q.tail_idx
    · rw [if_pos (by simp [hq])]
      exact ⟨h1, h2, h3⟩
    · rw [if_neg (by simp [hq])]
      refine ih _ _ i ?_ ?_ ?_ <;>
        · dsimp only
          by_cases hit : i = q.tail_idx
          · subst hit
            rw [List.getD_eq_getElem?_getD, List.getElem?_set]
            by_cases hlen : q.tail_idx < q.info.length <;>
              · simp [hlen, ionic_tx_clean_nbufs]
                all_goals rfl
          · rw [getD_set_ne_info _ _ _ _ hit]
            assumption

/-- The `ionic_tx_empty` walk advances `tail_idx` around the ring until it
meets `head_idx`, which it never touches (`d` the ring distance from tail
to head). -/
theorem tx_empty_loop_spec (k : Nat) :
    ∀ d fuel (q : IonicQueue) (released : List SkbRef),
      q.num_descs = 2 ^ k → q.tail_idx < 2 ^ k →
      q.head_idx = (q.tail_idx + d) % 2 ^ k → d < 2 ^ k → d < fuel →
      (ionic_tx_empty_loop fuel q released).1.tail_idx = q.head_idx ∧
      (ionic_tx_empty_loop fuel q released).1.head_idx = q.head_idx ∧
      (ionic_tx_empty_loop fuel q released).1.num_descs = 2 ^ k := by
  intro d
  induction d with
  | zero =>
    intro fuel q released hN ht hhead hdk hfuel
    obtain ⟨f, rfl⟩ : ∃ f, fuel = f + 1 := ⟨fuel - 1, by omega⟩
    have hic : q.head_idx = q.tail_idx := by
      rw [hhead, Nat.add_zero, Nat.mod_eq_of_lt ht]
    simp [ionic_tx_empty_loop, hic, hN]
  | succ d ih =>
    intro fuel q released hN ht hhead hdk hfuel
    obtain ⟨f, rfl⟩ : ∃ f, fuel = f + 1 := ⟨fuel - 1, by omega⟩
    have hne : q.head_idx ≠ q.tail_idx := by
      rw [hhead]
      exact ring_step_ne k q.tail_idx (d + 1) ht (by omega) hdk
    have hmask : (q.tail_idx + 1) &&& (q.num_descs - 1)
        = (q.tail_idx + 1) % 2 ^ k := by
      rw [hN, mask_eq_mod]
    have ih1 := fun qinfo released1 =>
      ih f
        { q with info := qinfo, tail_idx := (q.tail_idx + 1) % 2 ^ k }
        released1 hN (mod_two_pow_lt k _)
        (by
          show q.head_idx = ((q.tail_idx + 1) % 2 ^ k + d) % 2 ^ k
          rw [Nat.mod_add_mod,
            show q.tail_idx + 1 + d = q.tail_idx + (d + 1) from by omega,
            hhead])
        (by omega) (by omega)
    simp only [ionic_tx_empty_loop, hmask]
    rw [if_neg (by simp [hne])]
    have ih2 := ih1
      (q.info.set q.tail_idx
        { (ionic_tx_clean
            { q.info.getD q.tail_idx default with bytes := 0 }
            ({ q.info.getD q.tail_idx default with bytes := 0 }).cb_arg).1
          with cb := false, cb_arg := none })
      (released ++ (ionic_tx_clean
            { q.info.getD q.tail_idx default with bytes := 0 }
            ({ q.info.getD q.tail_idx default with bytes := 0 }).cb_arg).2.toList)
    exact ih2

/-- The `ionic_tx_empty` walk over the `d` not-completed slots (the ring
span from `tail_idx` to `head_idx`) releases exactly the packets attached
to those slots, in drain order, and leaves each of those slots cleaned: no
callback, no callback argument, no buffers in use. -/
theorem tx_empty_loop_drains (k : Nat) :
    ∀ d fuel (q : IonicQueue) (released : List SkbRef),
      q.num_descs = 2 ^ k → q.tail_idx < 2 ^ k →
      q.head_idx = (q.tail_idx + d) % 2 ^ k → d < 2 ^ k → d < fuel →
      (ionic_tx_empty_loop fuel q released).2 =
        released ++ outstanding_packets q (ring_span (2 ^ k) q.tail_idx d) ∧
      ∀ i ∈ ring_span (2 ^ k) q.tail_idx d,
        ((ionic_tx_empty_loop fuel q released).1.info.getD i default).cb
            = false ∧
        ((ionic_tx_empty_loop fuel q released).1.info.getD i default).cb_arg
            = none ∧
        ((ionic_tx_empty_loop fuel q released).1.info.getD i default).nbufs
            = 0 := by
  intro d
  induction d with
  | zero =>
    intro fuel q released hN ht hhead hdk hfuel
    obtain ⟨f, rfl⟩ : ∃ f, fuel = f + 1 := ⟨fuel - 1, by omega⟩
    have hic : q.head_idx = q.tail_idx := by
      rw [hhead, Nat.add_zero, Nat.mod_eq_of_lt ht]
    constructor
    · simp [ionic_tx_empty_loop, hic, ring_span, outstanding_packets]
    · intro i hi
      simp [ring_span] at hi
  | succ d ih =>
    intro fuel q released hN ht hhead hdk hfuel
    obtain ⟨f, rfl⟩ : ∃ f, fuel = f + 1 := ⟨fuel - 1, by omega⟩
    have hne : q.head_idx ≠ q.tail_idx := by
      rw [hhead]
      exact ring_step_ne k q.tail_idx (d + 1) ht (by omega) hdk
    have hmask : (q.tail_idx + 1) &&& (q.num_descs - 1)
        = (q.tail_idx + 1) % 2 ^ k := by
      rw [hN, mask_eq_mod]
    have havoid : ∀ i ∈ ring_span (2 ^ k) ((q.tail_idx + 1) % 2 ^ k) d,
        i ≠ q.tail_idx := by
      intro i hi
      obtain ⟨j, hj, rfl⟩ := ring_span_mem_form k d ((q.tail_idx + 1) % 2 ^ k)
        i (mod_two_pow_lt k _) hi
      rw [Nat.mod_add_mod,
        show q.tail_idx + 1 + j = q.tail_idx + (1 + j) from by omega]
      exact ring_step_ne k q.tail_idx (1 + j) ht (by omega) (by omega)
    have ih1 := fun qinfo released1 =>
      ih f { q with info := qinfo, tail_idx := (q.tail_idx + 1) % 2 ^ k }
        released1 hN (mod_two_pow_lt k _)
        (by
          show q.head_idx = ((q.tail_idx + 1) % 2 ^ k + d) % 2 ^ k
          rw [Nat.mod_add_mod,
            show q.tail_idx + 1 + d = q.tail_idx + (d + 1) from by omega,
            hhead])
        (by omega) (by omega)
    have ih2 := ih1
      (q.info.set q.tail_idx
        { (ionic_tx_clean
            { q.info.getD q.tail_idx default with bytes := 0 }
            ({ q.info.getD q.tail_idx default with bytes := 0 }).cb_arg).1
          with cb := false, cb_arg := none })
      (released ++ (ionic_tx_clean
            { q.info.getD q.tail_idx default with bytes := 0 }
            ({ q.info.getD q.tail_idx default with bytes := 0 }).cb_arg).2.toList)
    have hcongr : ∀ v : IonicDescInfo,
        outstanding_packets
          { q with info := q.info.set q.tail_idx v,
                   tail_idx := (q.tail_idx + 1) % 2 ^ k }
          (ring_span (2 ^ k) ((q.tail_idx + 1) % 2 ^ k) d)
          = outstanding_packets q
            (ring_span (2 ^ k) ((q.tail_idx + 1) % 2 ^ k) d) := by
      intro v
      apply outstanding_packets_congr
      intro i hi
      exact getD_set_ne_info _ _ _ _ (havoid i hi)
    constructor
    · simp only [ionic_tx_empty_loop, hmask]
      rw [if_neg (by simp [hne])]
      rw [ih2.1, hcongr _,
        show ring_span (2 ^ k) q.tail_idx (d + 1) = q.tail_idx ::
          ring_span (2 ^ k) ((q.tail_idx + 1) % 2 ^ k) d from rfl,
        outstanding_packets_cons, ionic_tx_clean_snd]
      simp [List.append_assoc]
    · intro i hi
      rw [show ring_span (2 ^ k) q.tail_idx (d + 1) = q.tail_idx ::
        ring_span (2 ^ k) ((q.tail_idx + 1) % 2 ^ k) d from rfl] at hi
      simp only [ionic_tx_empty_loop, hmask]
      rw [if_neg (by simp [hne])]
      rcases List.mem_cons.mp hi with hi | hi
      · subst hi
        refine tx_empty_loop_keeps_clean f _ _ q.tail_idx ?_ ?_ ?_ <;>
          · dsimp only
            rw [List.getD_eq_getElem?_getD, List.getElem?_set]
            by_cases hlen : q.tail_idx < q.info.length <;>
              · simp [hlen, ionic_tx_clean_nbufs]
                all_goals rfl
      · exact ih2.2 i hi

/-- Claim C3 counterexample: `ionic_tx_empty` on a 4-slot queue with
head = 2, tail = 1 releases the outstanding packet but leaves both indices
at 2, not zero — the claim's "both head_idx and tail_idx equal zero" after
TX teardown is false (only `ionic_rx_empty` resets the indices). -/
theorem claim_C3_counterexample :
    (ionic_tx_empty ⟨4, 2, 1,
      [⟨false, none, 0, 0, []⟩, ⟨true, some ⟨11, 60⟩, 0, 1, []⟩,
       ⟨false, none, 0, 0, []⟩, ⟨false, none, 0, 0, []⟩], 0, 0,
      2⟩).1.head_idx = 2 ∧
    (ionic_tx_empty ⟨4, 2, 1,
      [⟨false, none, 0, 0, []⟩, ⟨true, some ⟨11, 60⟩, 0, 1, []⟩,
       ⟨false, none, 0, 0, []⟩, ⟨false, none, 0, 0, []⟩], 0, 0,
      2⟩).1.tail_idx = 2 ∧
    ¬((ionic_tx_empty ⟨4, 2, 1,
      [⟨false, none, 0, 0, []⟩, ⟨true, some ⟨11, 60⟩, 0, 1, []⟩,
       ⟨false, none, 0, 0, []⟩, ⟨false, none, 0, 0, []⟩], 0, 0,
      2⟩).1.head_idx = 0) ∧
    (ionic_tx_empty ⟨4, 2, 1,
      [⟨false, none, 0, 0, []⟩, ⟨true, some ⟨11, 60⟩, 0, 1, []⟩,
       ⟨false, none, 0, 0, []⟩, ⟨false, none, 0, 0, []⟩], 0, 0,
      2⟩).2 = [⟨11, 60⟩] := by
  decide

/-- Claim C3 as amended: after `ionic_rx_empty` every buffer page of every
slot has been freed, all slot metadata is cleared, and both indices are
reset to zero.  After `ionic_tx_empty` the walk has cleaned every
not-completed slot — the ring span from `tail_idx` to `head_idx`: each such
slot ends with no callback, no callback argument and no buffers in use
(unmapped by `ionic_tx_clean`), and the packets attached to those slots
have been released, in drain order, as the walk's released trace.  The
queue is left empty with `tail_idx = head_idx` at the pre-teardown
`head_idx` — the indices are not reset to zero on the TX side. -/
theorem claim_C3_teardown_amended (k : Nat) (q qrx : IonicQueue) :
    ((ionic_rx_empty qrx).head_idx = 0 ∧ (ionic_rx_empty qrx).tail_idx = 0 ∧
      (∀ di ∈ (ionic_rx_empty qrx).info, di.cb = false ∧ di.cb_arg = none ∧
        di.nbufs = 0 ∧ ∀ b ∈ di.bufs, b.page = false)) ∧
    (q.num_descs = 2 ^ k → q.tail_idx < 2 ^ k → q.head_idx < 2 ^ k →
      (ionic_tx_empty q).1.tail_idx = q.head_idx ∧
      (ionic_tx_empty q).1.head_idx = q.head_idx ∧
      (ionic_tx_empty q).2 = outstanding_packets q
        (ring_span (2 ^ k) q.tail_idx
          ((q.head_idx + 2 ^ k - q.tail_idx) % 2 ^ k)) ∧
      ∀ i ∈ ring_span (2 ^ k) q.tail_idx
          ((q.head_idx + 2 ^ k - q.tail_idx) % 2 ^ k),
        ((ionic_tx_empty q).1.info.getD i default).cb = false ∧
        ((ionic_tx_empty q).1.info.getD i default).cb_arg = none ∧
        ((ionic_tx_empty q).1.info.getD i default).nbufs = 0) := by
  constructor
  · refine ⟨rfl, rfl, ?_⟩
    intro di hdi
    unfold ionic_rx_empty at hdi
    simp only [List.mem_map] at hdi
    obtain ⟨di0, _, rfl⟩ := hdi
    refine ⟨rfl, rfl, rfl, ?_⟩
    intro b hb
    simp only [List.mem_map] at hb
    obtain ⟨b0, _, rfl⟩ := hb
    unfold ionic_rx_page_free
    by_cases hp : b0.page <;> simp [hp]
  · intro hN ht hh
    have hd := tx_empty_loop_spec k
      ((q.head_idx + 2 ^ k - q.tail_idx) % 2 ^ k) (2 ^ k) q [] hN ht
      (ring_dist k q.tail_idx q.head_idx ht hh)
      (mod_two_pow_lt k _) (mod_two_pow_lt k _)
    have hd2 := tx_empty_loop_drains k
      ((q.head_idx + 2 ^ k - q.tail_idx) % 2 ^ k) (2 ^ k) q [] hN ht
      (ring_dist k q.tail_idx q.head_idx ht hh)
      (mod_two_pow_lt k _) (mod_two_pow_lt k _)
    unfold ionic_tx_empty
    rw [hN]
    exact ⟨hd.1, hd.2.1, by simpa using hd2.1, hd2.2⟩

/-- Witness for C3 (amended): tearing down a 4-slot RX queue with one
allocated buffer frees it and zeroes the indices; `ionic_tx_empty` on a
4-slot TX queue with head 2, tail 1 and a packet attached to slot 1 leaves
both indices at head = 2, releases exactly that packet, and clears the
drained slot's metadata. -/
theorem claim_C3_teardown_amended_witness :
    ((ionic_rx_empty ⟨4, 2, 1,
        [⟨true, none, 0, 1, [⟨true, 500, 0, true, 0, 0⟩]⟩], 0, 0,
        2⟩).head_idx = 0 ∧
      (ionic_rx_empty ⟨4, 2, 1,
        [⟨true, none, 0, 1, [⟨true, 500, 0, true, 0, 0⟩]⟩], 0, 0,
        2⟩).tail_idx = 0) ∧
    ((ionic_tx_empty ⟨4, 2, 1,
        [⟨false, none, 0, 0, []⟩, ⟨true, some ⟨21, 90⟩, 0, 1, []⟩,
         ⟨false, none, 0, 0, []⟩, ⟨false, none, 0, 0, []⟩], 0, 0,
        2⟩).1.tail_idx = 2 ∧
      (ionic_tx_empty ⟨4, 2, 1,
        [⟨false, none, 0, 0, []⟩, ⟨true, some ⟨21, 90⟩, 0, 1, []⟩,
         ⟨false, none, 0, 0, []⟩, ⟨false, none, 0, 0, []⟩], 0, 0,
        2⟩).1.head_idx = 2 ∧
      (ionic_tx_empty ⟨4, 2, 1,
        [⟨false, none, 0, 0, []⟩, ⟨true, some ⟨21, 90⟩, 0, 1, []⟩,
         ⟨false, none, 0, 0, []⟩, ⟨false, none, 0, 0, []⟩], 0, 0,
        2⟩).2 = [⟨21, 90⟩] ∧
      ((ionic_tx_empty ⟨4, 2, 1,
        [⟨false, none, 0, 0, []⟩, ⟨true, some ⟨21, 90⟩, 0, 1, []⟩,
         ⟨false, none, 0, 0, []⟩, ⟨false, none, 0, 0, []⟩], 0, 0,
        2⟩).1.info.getD 1 default).cb_arg = none) := by
  have h1 := (claim_C3_teardown_amended 2
    ⟨4, 2, 1,
      [⟨false, none, 0, 0, []⟩, ⟨true, some ⟨21, 90⟩, 0, 1, []⟩,
       ⟨false, none, 0, 0, []⟩, ⟨false, none, 0, 0, []⟩], 0, 0, 2⟩
    ⟨4, 2, 1, [⟨true, none, 0, 1, [⟨true, 500, 0, true, 0, 0⟩]⟩], 0, 0,
      2⟩).1
  have h2 := (claim_C3_teardown_amended 2
    ⟨4, 2, 1,
      [⟨false, none, 0, 0, []⟩, ⟨true, some ⟨21, 90⟩, 0, 1, []⟩,
       ⟨false, none, 0, 0, []⟩, ⟨false, none, 0, 0, []⟩], 0, 0, 2⟩
    ⟨4, 2, 1, [⟨true, none, 0, 1, [⟨true, 500, 0, true, 0, 0⟩]⟩], 0, 0,
      2⟩).2 (by decide) (by decide) (by decide)
  refine ⟨⟨h1.1, h1.2.1⟩, by rw [h2.1], by rw [h2.2.1],
    by rw [h2.2.2.1]; decide, (h2.2.2.2 1 (by decide)).2.1⟩

/-- `ionic_rx_service` keeps the descriptor count and keeps both indices in
range on a power-of-two ring. -/
theorem rx_service_inv (k : Nat) (P : PageParams) (mtu cbreak : Nat)
    (dc : Bool) (comp : IonicRxqComp) (q : IonicQueue)
    (hN : q.num_descs = 2 ^ k) (hh : q.head_idx < 2 ^ k)
    (ht : q.tail_idx < 2 ^ k) :
    (ionic_rx_service P mtu cbreak dc comp q).2.1.num_descs = 2 ^ k ∧
    (ionic_rx_service P mtu cbreak dc comp q).2.1.head_idx < 2 ^ k ∧
    (ionic_rx_service P mtu cbreak dc comp q).2.1.tail_idx < 2 ^ k := by
  by_cases h1 : comp.color = dc
  · by_cases h2 : q.tail_idx = q.head_idx
    · simp [ionic_rx_service, h1, h2, hN, hh, ht]
    · by_cases h3 : q.tail_idx = comp.comp_index
      · simp [ionic_rx_service, h1, h2, ← h3, hN, mask_eq_mod, hh,
          mod_two_pow_lt]
      · simp [ionic_rx_service, h1, h2, h3, hN, hh, ht]
  · simp [ionic_rx_service, h1, hN, hh, ht]

/-- The TX drain loop keeps the descriptor count and keeps both indices in
range on a power-of-two ring, whatever the completion index and fuel. -/
theorem tx_loop_inv (k comp : Nat) :
    ∀ fuel (q : IonicQueue) (cleaned : List Nat) (released : List SkbRef),
      q.num_descs = 2 ^ k → q.head_idx < 2 ^ k → q.tail_idx < 2 ^ k →
      (ionic_tx_service_loop comp fuel q cleaned released).1.num_descs
          = 2 ^ k ∧
      (ionic_tx_service_loop comp fuel q cleaned released).1.head_idx
          < 2 ^ k ∧
      (ionic_tx_service_loop comp fuel q cleaned released).1.tail_idx
          < 2 ^ k := by
  intro fuel
  induction fuel with
  | zero =>
    intro q cleaned released hN hh ht
    simpa [ionic_tx_service_loop] using ⟨hN, hh, ht⟩
  | succ f ih =>
    intro q cleaned released hN hh ht
    have hmask : (q.tail_idx + 1) &&& (q.num_descs - 1)
        = (q.tail_idx + 1) % 2 ^ k := by
      rw [hN, mask_eq_mod]
    simp only [ionic_tx_service_loop, hmask]
    by_cases hq : q.tail_idx = comp
    · simp [hq, hN, mod_two_pow_lt, hh]
    · rw [if_neg (by simp [hq])]
      exact ih _ _ _ (by simp [hN]) (by simp [hh]) (by simp [mod_two_pow_lt])

/-- `ionic_tx_service` keeps the descriptor count and the index ranges. -/
theorem tx_service_inv (k : Nat) (dc : Bool) (comp : IonicTxqComp)
    (q : IonicQueue) (hN : q.num_descs = 2 ^ k) (hh : q.head_idx < 2 ^ k)
    (ht : q.tail_idx < 2 ^ k) :
    (ionic_tx_service dc comp q).2.1.num_descs = 2 ^ k ∧
    (ionic_tx_service dc comp q).2.1.head_idx < 2 ^ k ∧
    (ionic_tx_service dc comp q).2.1.tail_idx < 2 ^ k := by
  by_cases h1 : comp.color = dc
  · rw [tx_service_unfold dc comp q h1]
    exact tx_loop_inv k comp.comp_index q.num_descs q [] [] hN hh ht
  · simp [ionic_tx_service, h1, hN, hh, ht]

/-- One fill iteration keeps the descriptor count and the index ranges
(the post advances `head_idx` modulo the descriptor count). -/
theorem rx_fill_one_inv (k : Nat) (P : PageParams) (len : Nat)
    (allocs : List (Option Nat)) (q : IonicQueue)
    (hN : q.num_descs = 2 ^ k) (hh : q.head_idx < 2 ^ k)
    (ht : q.tail_idx < 2 ^ k) :
    (ionic_rx_fill_one P len allocs q).1.num_descs = 2 ^ k ∧
    (ionic_rx_fill_one P len allocs q).1.head_idx < 2 ^ k ∧
    (ionic_rx_fill_one P len allocs q).1.tail_idx < 2 ^ k := by
  unfold ionic_rx_fill_one ionic_q_post
  dsimp only
  split
  · simp [hN, mod_two_pow_lt, ht]
  · split
    · simp [hN, hh, ht]
    · split
      · simp [hN, hh, ht]
      · simp [hN, mod_two_pow_lt, ht]

/-- The fill loop keeps the descriptor count and the index ranges. -/
theorem rx_fill_loop_inv (k : Nat) (P : PageParams) (len : Nat) :
    ∀ i (allocs : List (Option Nat)) (q : IonicQueue),
      q.num_descs = 2 ^ k → q.head_idx < 2 ^ k → q.tail_idx < 2 ^ k →
      (ionic_rx_fill_loop P len i allocs q).1.num_descs = 2 ^ k ∧
      (ionic_rx_fill_loop P len i allocs q).1.head_idx < 2 ^ k ∧
      (ionic_rx_fill_loop P len i allocs q).1.tail_idx < 2 ^ k := by
  intro i
  induction i with
  | zero =>
    intro allocs q hN hh ht
    simpa [ionic_rx_fill_loop] using ⟨hN, hh, ht⟩
  | succ i ih =>
    intro allocs q hN hh ht
    have hone := rx_fill_one_inv k P len allocs q hN hh ht
    rcases hfo : ionic_rx_fill_one P len allocs q with ⟨q1, oalloc⟩
    rw [hfo] at hone
    rcases oalloc with _ | allocs1
    · simpa [ionic_rx_fill_loop, hfo] using hone
    · simp only [ionic_rx_fill_loop, hfo]
      exact ih allocs1 q1 hone.1 hone.2.1 hone.2.2

/-- `ionic_rx_fill` keeps the descriptor count and the index ranges. -/
theorem rx_fill_inv (k : Nat) (P : PageParams) (mtu minD now : Nat)
    (allocs : List (Option Nat)) (q : IonicQueue)
    (hN : q.num_descs = 2 ^ k) (hh : q.head_idx < 2 ^ k)
    (ht : q.tail_idx < 2 ^ k) :
    (ionic_rx_fill P mtu minD now allocs q).num_descs = 2 ^ k ∧
    (ionic_rx_fill P mtu minD now allocs q).head_idx < 2 ^ k ∧
    (ionic_rx_fill P mtu minD now allocs q).tail_idx < 2 ^ k := by
  have hl := rx_fill_loop_inv k P (mtu + ETH_HLEN + VLAN_HLEN)
    (ionic_q_space_avail q) allocs q hN hh ht
  unfold ionic_rx_fill
  rcases hr : ionic_rx_fill_loop P (mtu + ETH_HLEN + VLAN_HLEN)
      (ionic_q_space_avail q) allocs q with ⟨q1, done⟩
  rw [hr] at hl
  simp only [hr]
  rcases done
  · simpa using hl
  · simpa using hl

/-- The TX teardown walk keeps the descriptor count and the index ranges,
whatever the fuel. -/
theorem tx_empty_loop_inv (k : Nat) :
    ∀ fuel (q : IonicQueue) (released : List SkbRef),
      q.num_descs = 2 ^ k → q.head_idx < 2 ^ k → q.tail_idx < 2 ^ k →
      (ionic_tx_empty_loop fuel q released).1.num_descs = 2 ^ k ∧
      (ionic_tx_empty_loop fuel q released).1.head_idx < 2 ^ k ∧
      (ionic_tx_empty_loop fuel q released).1.tail_idx < 2 ^ k := by
  intro fuel
  induction fuel with
  | zero =>
    intro q released hN hh ht
    simpa [ionic_tx_empty_loop] using ⟨hN, hh, ht⟩
  | succ f ih =>
    intro q released hN hh ht
    have hmask : (q.tail_idx + 1) &&& (q.num_descs - 1)
        = (q.tail_idx + 1) % 2 ^ k := by
      rw [hN, mask_eq_mod]
    simp only [ionic_tx_empty_loop, hmask]
    by_cases hq : q.head_idx = q.tail_idx
    · simp [hq, hN, hh, ht]
    · rw [if_neg (by simp [hq])]
      exact ih _ _ (by simp [hN]) (by simp [hh]) (by simp [mod_two_pow_lt])

/-- Every post/drain/teardown operation of claim C2 keeps the descriptor
count and keeps both indices within `[0, N)`. -/
theorem qop_apply_inv (k : Nat) (op : QOp) (q : IonicQueue)
    (hN : q.num_descs = 2 ^ k) (hh : q.head_idx < 2 ^ k)
    (ht : q.tail_idx < 2 ^ k) :
    (op.apply q).num_descs = 2 ^ k ∧ (op.apply q).head_idx < 2 ^ k ∧
    (op.apply q).tail_idx < 2 ^ k := by
  cases op with
  | op_rx_service P mtu cbreak dc comp =>
    exact rx_service_inv k P mtu cbreak dc comp q hN hh ht
  | op_tx_service dc comp => exact tx_service_inv k dc comp q hN hh ht
  | op_rx_fill P mtu minD now allocs =>
    exact rx_fill_inv k P mtu minD now allocs q hN hh ht
  | op_tx_empty =>
    have h := tx_empty_loop_inv k q.num_descs q [] hN hh ht
    exact h
  | op_rx_empty =>
    exact ⟨hN, Nat.two_pow_pos k, Nat.two_pow_pos k⟩

/-- On a ring of at least two descriptors, no in-range state is both empty
(`head_idx = tail_idx`) and full (posting one more would make the indices
equal). -/
theorem not_full_and_empty (k : Nat) (hk : 1 ≤ k) (q : IonicQueue)
    (hN : q.num_descs = 2 ^ k) (hh : q.head_idx < 2 ^ k) :
    ¬(queue_empty q = true ∧ queue_full q = true) := by
  rintro ⟨he, hf⟩
  unfold queue_empty at he
  unfold queue_full at hf
  simp only [decide_eq_true_eq] at he hf
  rw [hN, ← he] at hf
  have h2 : 2 ≤ 2 ^ k := by
    calc 2 = 2 ^ 1 := rfl
    _ ≤ 2 ^ k := Nat.pow_le_pow_right (by omega) hk
  by_cases hlt : q.head_idx + 1 < 2 ^ k
  · rw [Nat.mod_eq_of_lt hlt] at hf
    omega
  · have hx : q.head_idx + 1 = 2 ^ k := by omega
    rw [hx, Nat.mod_self] at hf
    omega

/-- Claim C2 counterexample: a one-descriptor queue (1 is a power of two,
indices in `[0, 1)`) is simultaneously empty and full before and after any
sequence of operations — the claim fails in the degenerate `N = 1` case,
where the reserved-slot discipline leaves no usable slot. -/
theorem claim_C2_counterexample :
    queue_empty (([] : List QOp).foldl (fun q op => op.apply q)
      ⟨1, 0, 0, [], 0, 0, 0⟩) = true ∧
    queue_full (([] : List QOp).foldl (fun q op => op.apply q)
      ⟨1, 0, 0, [], 0, 0, 0⟩) = true := by
  decide

/-- Claim C2 as amended: for every sequence of the post/drain/teardown
operations of this core (`ionic_rx_service`, `ionic_tx_service`,
`ionic_rx_fill`, `ionic_tx_empty`, `ionic_rx_empty`) applied to a queue
whose descriptor count is a power of two of at least 2 and whose indices
start in `[0, N)`, `head_idx` and `tail_idx` remain within `[0, N)` and the
queue is never simultaneously full and empty. -/
theorem claim_C2_ring_invariant_amended (k : Nat) (hk : 1 ≤ k)
    (ops : List QOp) (q0 : IonicQueue) (hN : q0.num_descs = 2 ^ k)
    (hh : q0.head_idx < 2 ^ k) (ht : q0.tail_idx < 2 ^ k) :
    (ops.foldl (fun q op => op.apply q) q0).head_idx < 2 ^ k ∧
    (ops.foldl (fun q op => op.apply q) q0).tail_idx < 2 ^ k ∧
    ¬(queue_empty (ops.foldl (fun q op => op.apply q) q0) = true ∧
      queue_full (ops.foldl (fun q op => op.apply q) q0) = true) := by
  have main : ∀ (ops : List QOp) (q : IonicQueue), q.num_descs = 2 ^ k →
      q.head_idx < 2 ^ k → q.tail_idx < 2 ^ k →
      (ops.foldl (fun q op => op.apply q) q).num_descs = 2 ^ k ∧
      (ops.foldl (fun q op => op.apply q) q).head_idx < 2 ^ k ∧
      (ops.foldl (fun q op => op.apply q) q).tail_idx < 2 ^ k := by
    intro ops
    induction ops with
    | nil => intro q h1 h2 h3; exact ⟨h1, h2, h3⟩
    | cons op rest ih =>
      intro q h1 h2 h3
      have hstep := qop_apply_inv k op q h1 h2 h3
      simpa [List.foldl_cons] using
        ih (op.apply q) hstep.1 hstep.2.1 hstep.2.2
  have hm := main ops q0 hN hh ht
  exact ⟨hm.2.1, hm.2.2, not_full_and_empty k hk _ hm.1 hm.2.1⟩

/-- Witness for C2 (amended): a 4-descriptor queue subjected to a fill, a
TX drain and an RX teardown keeps its indices in range and never reports
both full and empty. -/
theorem claim_C2_ring_invariant_amended_witness :
    (([QOp.op_rx_fill ⟨4096, 2048, 2048⟩ 1500 1 9 [some 700, some 800],
      QOp.op_tx_service true ⟨true, 1⟩, QOp.op_rx_empty] :
        List QOp).foldl (fun q op => op.apply q)
        (⟨4, 0, 0, [], 0, 0, 1⟩ : IonicQueue)).head_idx < 2 ^ 2 ∧
    (([QOp.op_rx_fill ⟨4096, 2048, 2048⟩ 1500 1 9 [some 700, some 800],
      QOp.op_tx_service true ⟨true, 1⟩, QOp.op_rx_empty] :
        List QOp).foldl (fun q op => op.apply q)
        (⟨4, 0, 0, [], 0, 0, 1⟩ : IonicQueue)).tail_idx < 2 ^ 2 ∧
    ¬(queue_empty (([QOp.op_rx_fill ⟨4096, 2048, 2048⟩ 1500 1 9
        [some 700, some 800], QOp.op_tx_service true ⟨true, 1⟩,
        QOp.op_rx_empty] : List QOp).foldl (fun q op => op.apply q)
        (⟨4, 0, 0, [], 0, 0, 1⟩ : IonicQueue)) = true ∧
      queue_full (([QOp.op_rx_fill ⟨4096, 2048, 2048⟩ 1500 1 9
        [some 700, some 800], QOp.op_tx_service true ⟨true, 1⟩,
        QOp.op_rx_empty] : List QOp).foldl (fun q op => op.apply q)
        (⟨4, 0, 0, [], 0, 0, 1⟩ : IonicQueue)) = true) :=
  claim_C2_ring_invariant_amended 2 (by decide)
    [QOp.op_rx_fill ⟨4096, 2048, 2048⟩ 1500 1 9 [some 700, some 800],
      QOp.op_tx_service true ⟨true, 1⟩, QOp.op_rx_empty]
    ⟨4, 0, 0, [], 0, 0, 1⟩ (by decide) (by decide) (by decide)

/-- The TSO inner loop succeeds whenever the mapped buffers still hold at
least `seg_rem` bytes, and it consumes exactly `seg_rem` of them. -/
theorem tso_seg_total (s : TsoInnerState) (segRem : Nat) :
    segRem ≤ tso_bytes_left s →
    ∃ s1, ionic_tx_tso_seg s segRem = some s1 ∧
      tso_bytes_left s1 + segRem = tso_bytes_left s := by
  induction s, segRem using ionic_tx_tso_seg.induct with
  | case1 s =>
    intro _
    refine ⟨s, ?_, by omega⟩
    unfold ionic_tx_tso_seg
    simp
  | case2 s segRem h1 h2 hb =>
    intro h
    exfalso
    unfold tso_bytes_left at h
    rw [h2, hb] at h
    simp at h
    omega
  | case3 s segRem h1 h2 b rest hb ih =>
    intro h
    have hby : tso_bytes_left
        { s with fragAddr := b.1, fragRem := b.2, bufs := rest }
        = tso_bytes_left s := by
      unfold tso_bytes_left
      rw [h2, hb]
      simp
    obtain ⟨s1, hs1, hsum⟩ := ih (by rw [hby]; exact h)
    refine ⟨s1, ?_, by rw [← hby]; omega⟩
    conv_lhs => unfold ionic_tx_tso_seg
    simp only [dif_neg h1, dif_pos h2]
    split
    · simp_all
    · rename_i b2 rest2 hb2
      rw [hb] at hb2
      injection hb2 with h3 h4
      subst h3
      subst h4
      exact hs1
  | case4 s segRem h1 h2 chunk filled ih =>
    intro h
    obtain ⟨s1, hs1, hsum⟩ := ih (by
      unfold tso_bytes_left at h ⊢
      dsimp only
      omega)
    unfold tso_bytes_left at hsum ⊢
    dsimp only at hsum
    refine ⟨s1, ?_, by omega⟩
    conv_lhs => unfold ionic_tx_tso_seg
    simp only [dif_neg h1, dif_neg h2]
    exact hs1

/-- The TSO outer loop, entered with bytes remaining, a positive segment
budget covered by the mapped buffers, and positive MSS, posts a nonempty
descriptor list in which the first descriptor alone carries the `start`
marking (start-of-transfer flag, `ionic_tx_clean` callback and the packet
as its argument when `start` is set), every later descriptor is posted with
no callback and NULL argument and without the start flag, and the
end-of-transfer flag sits on the last descriptor and nowhere else. -/
theorem tso_loop_flags (skb : SkbRef) (hdrlen mss : Nat) (oc : Bool)
    (vt : Nat) (hv : Bool) (hmss : 0 < mss) :
    ∀ fuel tsoRem segRem (s : TsoInnerState) (start : Bool),
      0 < tsoRem → tsoRem < fuel → segRem ≤ tsoRem → 0 < segRem →
      tso_bytes_left s = tsoRem →
      ∃ d0 ds dl,
        ionic_tx_tso_loop skb hdrlen mss oc vt hv fuel tsoRem segRem s start
          = some (d0 :: ds) ∧
        d0.flag_sot = start ∧ d0.cb = start ∧
        d0.cb_arg = (if start then some skb else none) ∧
        (∀ d ∈ ds, d.flag_sot = false ∧ d.cb = false ∧ d.cb_arg = none) ∧
        (∀ d ∈ (d0 :: ds).dropLast, d.flag_eot = false) ∧
        (d0 :: ds).getLast? = some dl ∧ dl.flag_eot = true := by
  intro fuel
  induction fuel with
  | zero =>
    intro tsoRem segRem s start h0 hf
    omega
  | succ f ih =>
    intro tsoRem segRem s start h0 hf hseg hs0 hbl
    have hcov : segRem ≤ tso_bytes_left
        { s with haveDesc := false, descAddr := 0, descLen := 0,
                 elems := [] } := by
      unfold tso_bytes_left at hbl ⊢
      dsimp only
      omega
    obtain ⟨s1, hs1, hsum⟩ := tso_seg_total
      { s with haveDesc := false, descAddr := 0, descLen := 0, elems := [] }
      segRem hcov
    have hbl1 : tso_bytes_left s1 = tsoRem - segRem := by
      unfold tso_bytes_left at hsum hbl ⊢
      dsimp only at hsum hbl ⊢
      omega
    by_cases hdone : tsoRem - segRem = 0
    · have hf1 : 0 < f := by omega
      obtain ⟨f2, rfl⟩ : ∃ f2, f = f2 + 1 := ⟨f - 1, by omega⟩
      refine ⟨ionic_tx_tso_post skb s1.descAddr s1.elems.length s1.descLen
          s1.elems hdrlen mss oc vt hv start
          (decide (tsoRem - segRem = 0)), [],
        ionic_tx_tso_post skb s1.descAddr s1.elems.length s1.descLen
          s1.elems hdrlen mss oc vt hv start
          (decide (tsoRem - segRem = 0)), ?_, rfl, rfl, rfl,
        by simp, by simp, by simp, by simp [ionic_tx_tso_post, hdone]⟩
      simp only [ionic_tx_tso_loop, if_neg (by omega : ¬tsoRem = 0), hs1]
      rw [hdone]
      simp [ionic_tx_tso_loop]
    · have h1 : 0 < tsoRem - segRem := by omega
      obtain ⟨d0, ds, dl, hrec, hd0sot, hd0cb, hd0arg, hds, hdrop, hlast,
          hdl⟩ :=
        ih (tsoRem - segRem) (min (tsoRem - segRem) mss) s1 false h1
          (by omega) (Nat.min_le_left _ _) (by omega) hbl1
      refine ⟨ionic_tx_tso_post skb s1.descAddr s1.elems.length s1.descLen
          s1.elems hdrlen mss oc vt hv start
          (decide (tsoRem - segRem = 0)), d0 :: ds, dl, ?_, rfl, rfl, rfl,
        ?_, ?_, ?_, hdl⟩
      · simp only [ionic_tx_tso_loop, if_neg (by omega : ¬tsoRem = 0), hs1,
          hrec]
      · intro d hd
        rcases List.mem_cons.mp hd with hd | hd
        · rw [hd]
          exact ⟨hd0sot, hd0cb, by rw [hd0arg]; simp⟩
        · exact hds d hd
      · intro d hd
        rw [List.dropLast_cons₂] at hd
        rcases List.mem_cons.mp hd with hd | hd
        · rw [hd]
          simp [ionic_tx_tso_post, hdone]
        · exact hdrop d hd
      · rw [List.getLast?_cons_cons]
        exact hlast

/-- Claim C5: for every TSO packet segmented by `ionic_tx_tso` (positive
length, positive MSS, mapped buffers covering the packet), the posted
descriptors are nonempty; exactly one carries the start-of-transfer flag —
the first posted — and exactly one carries the end-of-transfer flag — the
last posted, covering the final byte (for a single-descriptor TSO they are
the same descriptor); and only the start descriptor is posted with the
`ionic_tx_clean` callback and the packet as its argument, every other
descriptor being posted with no callback and NULL argument. -/
theorem claim_C5_tso_flags (skb : SkbRef) (mss hdrlen : Nat) (oc : Bool)
    (vt : Nat) (hv : Bool) (bufs : List (Nat × Nat)) (hlen : 0 < skb.len)
    (hmss : 0 < mss) (hsum : (bufs.map Prod.snd).sum = skb.len) :
    ∃ d0 ds dl,
      ionic_tx_tso skb mss hdrlen oc vt hv bufs = some (d0 :: ds) ∧
      d0.flag_sot = true ∧ d0.cb = true ∧ d0.cb_arg = some skb ∧
      (∀ d ∈ ds, d.flag_sot = false ∧ d.cb = false ∧ d.cb_arg = none) ∧
      (∀ d ∈ (d0 :: ds).dropLast, d.flag_eot = false) ∧
      (d0 :: ds).getLast? = some dl ∧ dl.flag_eot = true := by
  obtain ⟨d0, ds, dl, hloop, hd0sot, hd0cb, hd0arg, hds, hdrop, hlast,
      hdl⟩ :=
    tso_loop_flags skb hdrlen mss oc vt hv hmss (skb.len + 1) skb.len
      (min skb.len (hdrlen + mss))
      { fragAddr := 0, fragRem := 0, bufs := bufs, haveDesc := false,
        descAddr := 0, descLen := 0, elems := [] } true hlen (by omega)
      (Nat.min_le_left _ _) (by omega)
      (by unfold tso_bytes_left; simpa using hsum)
  refine ⟨d0, ds, dl, ?_, hd0sot, hd0cb, by rw [hd0arg]; simp, hds, hdrop,
    hlast, hdl⟩
  unfold ionic_tx_tso
  exact hloop

/-- Witness for C5: a 5-byte packet (1-byte header, MSS 2) mapped as one
5-byte buffer segments into descriptors of which exactly the first carries
the start flag and the callback, and exactly the last the end flag. -/
theorem claim_C5_tso_flags_witness :
    ∃ d0 ds dl,
      ionic_tx_tso ⟨7, 5⟩ 2 1 false 0 false [(100, 5)] = some (d0 :: ds) ∧
      d0.flag_sot = true ∧ d0.cb = true ∧ d0.cb_arg = some ⟨7, 5⟩ ∧
      (∀ d ∈ ds, d.flag_sot = false ∧ d.cb = false ∧ d.cb_arg = none) ∧
      (∀ d ∈ (d0 :: ds).dropLast, d.flag_eot = false) ∧
      (d0 :: ds).getLast? = some dl ∧ dl.flag_eot = true :=
  claim_C5_tso_flags ⟨7, 5⟩ 2 1 false 0 false [(100, 5)] (by decide)
    (by decide) (by decide)

end Ionic
